import Mathlib

/-!
Verification of the KrillinAI subtitle-synthesis pipeline against its
natural-language specification.

The definitions below are a shallow embedding of the Go sources:
`internal/service/audio2subtitle.go`, `internal/service/srt2speech.go`,
`internal/service/srt_embed.go`, `internal/service/upload_subtitle.go` and
the task driver `StartSubtitleTask`.  Machine floats (`float64` times) are
modelled as rationals: the embedded code only assigns, compares, adds,
subtracts and divides them, so rational arithmetic is faithful up to float
rounding, which none of the verified claims depends on.  External effects
(LLM, TTS, ffmpeg, the file system) are modelled as oracle arguments or as
symbolic "plan" values recording exactly the operations the code issues.
-/

set_option maxHeartbeats 1000000
set_option maxRecDepth 100000

namespace KrillinAI

/-- `types.Word`: one ASR word.  `Num` is the monotone sequence number,
`Start`/`End` are segment-local seconds (Go `float64`, modelled as `ℚ`).
The Go zero value `types.Word{}` is the `default` instance below; the code
uses it as the "placeholder" word (text only). -/
structure Word where
  num : Int
  text : String
  start : ℚ
  stop : ℚ
deriving DecidableEq, Repr

instance : Inhabited Word := ⟨⟨0, "", 0, 0⟩⟩

/-- `types.SrtSentence`: the start/end pair computed for one sentence. -/
structure SrtSentence where
  start : ℚ
  stop : ℚ
deriving DecidableEq, Repr

/-- `.num` of the word at index `i`, with the Go zero `Word` when out of
range (`audio2subtitle.go` only indexes in range). -/
def wNum (words : List Word) (i : Nat) : Int :=
  (words.getD i default).num

/-- Loop of `findMaxIncreasingSubArray` (audio2subtitle.go:625-645), indexed
exactly as the Go `for i := 1; i < len(words); i++` loop; `fuel` is an upper
bound on the remaining iterations (the wrapper passes `words.length`, which
always suffices, so the `0` case replays the final check after the loop). -/
def fmisLoop (words : List Word) : Nat → Nat → Nat → Nat → Nat → Nat → Nat × Nat
  | 0, _, maxStart, maxLen, currStart, currLen =>
      if maxLen < currLen then (currStart, currStart + currLen)
      else (maxStart, maxStart + maxLen)
  | fuel + 1, i, maxStart, maxLen, currStart, currLen =>
      if i < words.length then
        if wNum words i = wNum words (i - 1) + 1 then
          fmisLoop words fuel (i + 1) maxStart maxLen currStart (currLen + 1)
        else if maxLen < currLen then
          fmisLoop words fuel (i + 1) currStart currLen i 1
        else
          fmisLoop words fuel (i + 1) maxStart maxLen i 1
      else
        if maxLen < currLen then (currStart, currStart + currLen)
        else (maxStart, maxStart + maxLen)

/-- `findMaxIncreasingSubArray` (audio2subtitle.go:615-649): start and
one-past-the-end index of the leftmost longest run of words whose `Num`
increases by exactly 1, `(0, 0)` for the empty list. -/
def findMaxIncreasingSubArray (words : List Word) : Nat × Nat :=
  if words.length = 0 then (0, 0)
  else fmisLoop words words.length 1 0 1 0 1

/-- `words[j+1].Num = words[j].Num + 1`: the adjacency the run search uses. -/
def WStep (words : List Word) (j : Nat) : Prop :=
  wNum words (j + 1) = wNum words j + 1

/-- `[s, e)` satisfies the +1-consecutive property on `words` (every
adjacent pair inside the window steps by exactly one). -/
def RunIn (words : List Word) (s e : Nat) : Prop :=
  ∀ j, s ≤ j → j + 1 < e → WStep words j

/-- A non-empty in-bounds window of `words` whose `Num`s increase by exactly
1 at each step: the runs `findMaxIncreasingSubArray` searches. -/
def IsIncRun (words : List Word) (s e : Nat) : Prop :=
  s < e ∧ e ≤ words.length ∧ RunIn words s e

instance (words : List Word) (j : Nat) : Decidable (WStep words j) := by
  unfold WStep; infer_instance

instance (words : List Word) (s e : Nat) : Decidable (RunIn words s e) := by
  unfold RunIn
  exact decidable_of_iff (∀ j < e, s ≤ j → j + 1 < e → WStep words j)
    ⟨fun h j hs he => h j (by omega) hs he, fun h j _ hs he => h j hs he⟩

instance (words : List Word) (s e : Nat) : Decidable (IsIncRun words s e) := by
  unfold IsIncRun; infer_instance

/-- Invariant of `fmisLoop` at the head of each iteration: `[currStart, i)`
is the running (left-maximal) run ending at the cursor, `[maxStart,
maxStart+maxLen)` is a run recording the leftmost maximum over every run
that ends at or before `currStart`. -/
def FmisInv (words : List Word) (i ms ml cs cl : Nat) : Prop :=
  1 ≤ i ∧ i ≤ words.length ∧
  cs < i ∧ cl = i - cs ∧ RunIn words cs i ∧
  (cs = 0 ∨ ¬ WStep words (cs - 1)) ∧
  1 ≤ ml ∧ ms + ml ≤ i ∧ RunIn words ms (ms + ml) ∧ ms ≤ cs ∧
  (∀ s e, s < e → e ≤ cs → RunIn words s e →
    e - s ≤ ml ∧ (e - s = ml → ms ≤ s))

/-- What the search must output: a genuine run, of maximal length, and
leftmost among all runs of that length. -/
def FmisGoal (words : List Word) (p : Nat × Nat) : Prop :=
  IsIncRun words p.1 p.2 ∧
  (∀ s e, IsIncRun words s e → e - s ≤ p.2 - p.1) ∧
  (∀ s e, IsIncRun words s e → e - s = p.2 - p.1 → p.1 ≤ s)

/-- A run cannot cross an index where the +1 adjacency fails. -/
theorem run_no_cross (words : List Word) {s e c : Nat}
    (hbreak : c = 0 ∨ ¬ WStep words (c - 1)) (hrun : RunIn words s e)
    (h1 : s < c) (h2 : c < e) : False := by
  rcases hbreak with h0 | hb
  · omega
  · have hw : WStep words (c - 1) := by
      have := hrun (c - 1) (by omega) (by omega)
      simpa [show c - 1 + 1 = c by omega] using this
    exact hb hw

/-- The final check after the loop (`audio2subtitle.go:641-648`) turns the
invariant into the goal once the index has reached the end. -/
theorem fmis_final (words : List Word) {i ms ml cs cl : Nat}
    (hinv : FmisInv words i ms ml cs cl) (hend : words.length ≤ i) :
    FmisGoal words (if ml < cl then (cs, cs + cl) else (ms, ms + ml)) := by
  obtain ⟨hi1, hin, hcsi, hcl, hruncs, hbrk, hml1, hmsml, hrunms, hmscs, hwin⟩ := hinv
  have hieq : i = words.length := by omega
  by_cases hlt : ml < cl
  · simp only [if_pos hlt]
    refine ⟨⟨by omega, by omega, ?_⟩, ?_, ?_⟩
    · intro j hj hj2
      exact hruncs j hj (by omega)
    · rintro s e ⟨hse, hel, hrun⟩
      by_cases hec : e ≤ cs
      · have := (hwin s e hse hec hrun).1
        simp only []
        omega
      · have hsc : cs ≤ s := by
          by_contra hcon
          exact run_no_cross words hbrk hrun (by omega) (by omega)
        simp only []
        omega
    · rintro s e ⟨hse, hel, hrun⟩ hlen
      by_cases hec : e ≤ cs
      · have := (hwin s e hse hec hrun).1
        simp only [] at hlen
        omega
      · have hsc : cs ≤ s := by
          by_contra hcon
          exact run_no_cross words hbrk hrun (by omega) (by omega)
        simp only []
        omega
  · simp only [if_neg hlt]
    refine ⟨⟨by omega, by omega, hrunms⟩, ?_, ?_⟩
    · rintro s e ⟨hse, hel, hrun⟩
      by_cases hec : e ≤ cs
      · have := (hwin s e hse hec hrun).1
        simp only []
        omega
      · have hsc : cs ≤ s := by
          by_contra hcon
          exact run_no_cross words hbrk hrun (by omega) (by omega)
        simp only []
        omega
    · rintro s e ⟨hse, hel, hrun⟩ hlen
      simp only [] at hlen ⊢
      by_cases hec : e ≤ cs
      · exact (hwin s e hse hec hrun).2 (by omega)
      · have hsc : cs ≤ s := by
          by_contra hcon
          exact run_no_cross words hbrk hrun (by omega) (by omega)
        omega

/-- Every invocation of `fmisLoop` with enough fuel and a valid invariant
computes a leftmost longest run. -/
theorem fmisLoop_goal (words : List Word) :
    ∀ fuel i ms ml cs cl, FmisInv words i ms ml cs cl →
      words.length ≤ fuel + i →
      FmisGoal words (fmisLoop words fuel i ms ml cs cl) := by
  intro fuel
  induction fuel with
  | zero =>
    intro i ms ml cs cl hinv hfu
    simpa [fmisLoop] using fmis_final words hinv (by omega)
  | succ fuel ih =>
    intro i ms ml cs cl hinv hfu
    by_cases hi : i < words.length
    · have hinv' := hinv
      obtain ⟨hi1, hin, hcsi, hcl, hruncs, hbrk, hml1, hmsml, hrunms, hmscs, hwin⟩ := hinv'
      by_cases hstep : wNum words i = wNum words (i - 1) + 1
      · have hws : WStep words (i - 1) := by
          unfold WStep
          simpa [show i - 1 + 1 = i by omega] using hstep
        rw [fmisLoop, if_pos hi, if_pos hstep]
        apply ih
        · refine ⟨by omega, by omega, by omega, by omega, ?_, hbrk, hml1, by omega,
            hrunms, hmscs, hwin⟩
          intro j hj hj2
          by_cases hj3 : j + 1 < i
          · exact hruncs j hj hj3
          · have : j = i - 1 := by omega
            subst this
            exact hws
        · omega
      · have hnws : ¬ WStep words (i - 1) := by
          unfold WStep
          simpa [show i - 1 + 1 = i by omega] using hstep
        have hcross : ∀ s e, s < e → e ≤ i → RunIn words s e → cs ≤ s ∨ e ≤ cs := by
          intro s e hse hei hrun
          by_cases hec : e ≤ cs
          · exact Or.inr hec
          · left
            by_contra hcon
            exact run_no_cross words hbrk hrun (by omega) (by omega)
        by_cases hgt : ml < cl
        · rw [fmisLoop, if_pos hi, if_neg hstep, if_pos hgt]
          apply ih
          · refine ⟨by omega, by omega, by omega, by omega, ?_, ?_, by omega, by omega,
              ?_, by omega, ?_⟩
            · intro j hj hj2
              omega
            · right
              exact hnws
            · intro j hj hj2
              exact hruncs j hj (by omega)
            · intro s e hse hei hrun
              rcases hcross s e hse hei hrun with hsc | hec
              · constructor
                · omega
                · intro _
                  omega
              · have := (hwin s e hse hec hrun).1
                constructor
                · omega
                · intro h
                  omega
          · omega
        · rw [fmisLoop, if_pos hi, if_neg hstep, if_neg hgt]
          apply ih
          · refine ⟨by omega, by omega, by omega, by omega, ?_, ?_, hml1, by omega,
              hrunms, by omega, ?_⟩
            · intro j hj hj2
              omega
            · right
              exact hnws
            · intro s e hse hei hrun
              rcases hcross s e hse hei hrun with hsc | hec
              · constructor
                · omega
                · intro h
                  have : s = cs := by omega
                  omega
              · exact hwin s e hse hec hrun
          · omega
    · rw [fmisLoop, if_neg hi]
      exact fmis_final words hinv (by omega)

/-- Claim C10: on a non-empty word list `findMaxIncreasingSubArray` returns
`(start, end)` with `0 ≤ start < end ≤ length`, the `Num` fields on
`start..end-1` increase by exactly 1 at each step, no run with this property
is longer than `end - start`, and among the runs of maximal length the
leftmost one is returned; on the empty list it returns `(0, 0)`. -/
theorem findMaxIncreasingSubArray_spec (words : List Word) :
    (words = [] → findMaxIncreasingSubArray words = (0, 0)) ∧
    (words ≠ [] →
      IsIncRun words (findMaxIncreasingSubArray words).1
        (findMaxIncreasingSubArray words).2 ∧
      (∀ s e, IsIncRun words s e →
        e - s ≤ (findMaxIncreasingSubArray words).2 -
          (findMaxIncreasingSubArray words).1) ∧
      (∀ s e, IsIncRun words s e →
        e - s = (findMaxIncreasingSubArray words).2 -
          (findMaxIncreasingSubArray words).1 →
        (findMaxIncreasingSubArray words).1 ≤ s)) := by
  constructor
  · intro h
    subst h
    rfl
  · intro hne
    have hlen : 0 < words.length := List.length_pos.mpr hne
    have hgoal : FmisGoal words (findMaxIncreasingSubArray words) := by
      unfold findMaxIncreasingSubArray
      rw [if_neg (by omega)]
      apply fmisLoop_goal
      · refine ⟨le_refl 1, by omega, by omega, by omega, ?_, Or.inl rfl, le_refl 1,
          by omega, ?_, le_refl 0, ?_⟩
        · intro j hj hj2
          omega
        · intro j hj hj2
          omega
        · intro s e hse hec hrun
          omega
      · omega
    exact hgoal

/-- Witness for C10: the spec evaluated on a concrete list whose leftmost
longest run is `[1, 3)` (`Num`s 7, 2, 3, 9). -/
theorem findMaxIncreasingSubArray_spec_witness :
    (([⟨7, "a", 0, 1⟩, ⟨2, "b", 1, 2⟩, ⟨3, "c", 2, 3⟩, ⟨9, "d", 3, 4⟩] : List Word) ≠ []) ∧
    findMaxIncreasingSubArray
      [⟨7, "a", 0, 1⟩, ⟨2, "b", 1, 2⟩, ⟨3, "c", 2, 3⟩, ⟨9, "d", 3, 4⟩] = (1, 3) ∧
    IsIncRun [⟨7, "a", 0, 1⟩, ⟨2, "b", 1, 2⟩, ⟨3, "c", 2, 3⟩, ⟨9, "d", 3, 4⟩] 1 3 := by
  refine ⟨by simp, by decide, ?_⟩
  have h := (findMaxIncreasingSubArray_spec
    [⟨7, "a", 0, 1⟩, ⟨2, "b", 1, 2⟩, ⟨3, "c", 2, 3⟩, ⟨9, "d", 3, 4⟩]).2 (by simp)
  have heq : findMaxIncreasingSubArray
      [⟨7, "a", 0, 1⟩, ⟨2, "b", 1, 2⟩, ⟨3, "c", 2, 3⟩, ⟨9, "d", 3, 4⟩] = (1, 3) := by
    decide
  rw [heq] at h
  exact h.1

/-! ### Go string primitives, modelled structurally so that they evaluate
inside the kernel.  Each is the direct counterpart of the Go function named
in its comment; Unicode corner cases that none of the inputs below exercise
(non-ASCII spaces, case folding beyond `Char.toLower`) are noted inline. -/

/-- Go `unicode.IsSpace` restricted to the ASCII whitespace the pipeline
meets (Go additionally treats some Unicode spaces as space). -/
def goIsSpace (c : Char) : Bool :=
  c = ' ' || c = '\t' || c = '\n' || c = '\x0b' || c = '\x0c' || c = '\r'

/-- Go `strings.TrimSpace`. -/
def goTrim (s : String) : String :=
  String.mk (((s.data.dropWhile goIsSpace).reverse.dropWhile goIsSpace).reverse)

/-- Splitting on one separator character; agrees with Go
`strings.Split(s, sep)` for a single-character separator. -/
def splitCharAux (sep : Char) : List Char → List Char → List (List Char)
  | [], acc => [acc.reverse]
  | c :: cs, acc =>
    if c = sep then acc.reverse :: splitCharAux sep cs []
    else splitCharAux sep cs (c :: acc)

/-- Go `strings.Split(s, string(sep))`. -/
def goSplit (sep : Char) (s : String) : List String :=
  (splitCharAux sep s.data []).map String.mk

/-- `as` is a prefix of `bs`. -/
def startsWithChars : List Char → List Char → Bool
  | [], _ => true
  | _ :: _, [] => false
  | a :: as, b :: bs => a = b && startsWithChars as bs

/-- `sub` occurs somewhere in the list. -/
def hasSubChars (sub : List Char) : List Char → Bool
  | [] => startsWithChars sub []
  | c :: cs => startsWithChars sub (c :: cs) || hasSubChars sub cs

/-- Go `strings.Contains(s, sub)`. -/
def goContains (s sub : String) : Bool :=
  hasSubChars sub.data s.data

/-- Go `len(s)`: the UTF-8 byte length. -/
def goLen (s : String) : Nat :=
  (s.data.map Char.utf8Size).sum

/-- Go `len(strings.TrimSpace(s))`. -/
def trimmedByteLen (s : String) : Nat :=
  goLen (goTrim s)

/-- Go `strconv.Atoi` viewed as a success predicate: an optional sign
followed by at least one digit (overflow, which Go also rejects, never
occurs on the inputs considered here). -/
def isAtoiInt (s : String) : Bool :=
  match s.data with
  | [] => false
  | c :: rest =>
    if c = '+' || c = '-' then !rest.isEmpty && rest.all Char.isDigit
    else (c :: rest).all Char.isDigit

/-- Go `strings.TrimPrefix(s, "[")` then `strings.TrimSuffix(s, "]")`
(audio2subtitle.go:1044-1045). -/
def trimSquareBrackets (s : String) : String :=
  let d1 := match s.data with
    | '[' :: rest => rest
    | d => d
  String.mk (match d1.reverse with
    | ']' :: rest => rest.reverse
    | _ => d1)

/-- Go `strings.Contains(s, "[无文本]")`, the "no text" sentinel test
(audio2subtitle.go:1016). -/
def containsNoTextMark (s : String) : Bool :=
  goContains s "[无文本]"

/-! ### `isValidSplitContent` (audio2subtitle.go:1009-1065) -/

/-- The scanning loop of `isValidSplitContent` (audio2subtitle.go:1030-1050),
indexed like the Go `for i := 0; i < len(lines); i++` with the `i += 2` skip
after a recognized block; `none` models the early `return false` when a
block start appears with fewer than two lines after it.  `fuel` bounds the
iterations; the callers pass `lines.length`, which always suffices. -/
def svcLoop (lines : List String) :
    Nat → Nat → List String → Bool → Option (List String × Bool)
  | 0, _, origs, fmt => some (origs, fmt)
  | fuel + 1, i, origs, fmt =>
    if i < lines.length then
      if goTrim (lines.getD i "") = "" then svcLoop lines fuel (i + 1) origs fmt
      else if isAtoiInt (goTrim (lines.getD i "")) then
        if lines.length ≤ i + 2 then none
        else svcLoop lines fuel (i + 3)
          (origs ++ [trimSquareBrackets (goTrim (lines.getD (i + 2) ""))]) true
      else svcLoop lines fuel (i + 1) origs fmt
    else some (origs, fmt)

/-- `isValidSplitContent(splitContent, originalText)`
(audio2subtitle.go:1009-1065), translated clause by clause: the empty
cases, the `[无文本]` sentinel, the minimum of 3 lines, the scan for
blocks, and the ±200-byte length comparison of the collected originals
against the trimmed input text. -/
def isValidSplitContent (splitContent originalText : String) : Bool :=
  if splitContent = "" || originalText = "" then
    splitContent = "" && originalText = ""
  else if containsNoTextMark splitContent then
    originalText = "" || trimmedByteLen originalText < 10
  else
    let lines := goSplit '\n' splitContent
    if lines.length < 3 then false
    else
      match svcLoop lines lines.length 0 [] false with
      | none => false
      | some (origs, fmt) =>
        if !fmt || origs.isEmpty then false
        else
          ((trimmedByteLen originalText : Int) -
            (trimmedByteLen (String.join origs) : Int)).natAbs ≤ 200

mutual

/-- The block scan of `isValidSplitContent` written structurally (used to
state the amended C5): skip blank lines; any non-blank line accepted by Go
`Atoi` — zero and negative integers included — starts a block and hands the
following lines to `scanBlocksTail`. -/
def scanBlocks : List String → Option (List String)
  | [] => some []
  | l :: rest =>
    if goTrim l = "" then scanBlocks rest
    else if isAtoiInt (goTrim l) then scanBlocksTail rest
    else scanBlocks rest

/-- After a block start: demand two further lines, collect the second of
them (trimmed, brackets stripped), resume the scan after them. -/
def scanBlocksTail : List String → Option (List String)
  | _ :: second :: rest2 =>
    (scanBlocks rest2).map (fun os => trimSquareBrackets (goTrim second) :: os)
  | _ => none

end

/-- Amended C5 acceptance condition, written from the corrected claim: for
non-empty payload and original, either the sentinel appears and the trimmed
original is under 10 bytes, or the payload has at least 3 lines, the block
scan succeeds with at least one block, and the collected originals' total
trimmed length is within 200 bytes of the trimmed original. -/
def amendedValidSplitContent (p o : String) : Bool :=
  if p = "" || o = "" then p = "" && o = ""
  else if containsNoTextMark p then trimmedByteLen o < 10
  else
    let lines := goSplit '\n' p
    decide (3 ≤ lines.length) &&
      match scanBlocks lines with
      | some origs =>
        !origs.isEmpty &&
          ((trimmedByteLen o : Int) - (trimmedByteLen (String.join origs) : Int)).natAbs ≤ 200
      | none => false

/-- The indexed scan equals the structural scan on the remaining suffix,
with the collected originals appended to the accumulator and the format
flag absorbing "at least one block was found". -/
theorem svcLoop_eq_scanBlocks (lines : List String) :
    ∀ fuel i origs fmt, lines.length - i ≤ fuel →
      svcLoop lines fuel i origs fmt =
        (scanBlocks (lines.drop i)).map
          (fun os => (origs ++ os, fmt || !os.isEmpty)) := by
  intro fuel
  induction fuel with
  | zero =>
    intro i origs fmt hfu
    have hdrop : lines.drop i = [] := List.drop_eq_nil_of_le (by omega)
    simp [svcLoop, hdrop, scanBlocks]
  | succ fuel ih =>
    intro i origs fmt hfu
    by_cases hi : i < lines.length
    · obtain ⟨l, hl⟩ : ∃ l, lines.getD i "" = l := ⟨_, rfl⟩
      have hdrop : lines.drop i = l :: lines.drop (i + 1) := by
        rw [← hl, List.getD_eq_getElem lines "" hi]
        exact List.drop_eq_getElem_cons hi
      rw [hdrop, svcLoop]
      simp only [if_pos hi, hl]
      by_cases hblank : goTrim l = ""
      · rw [if_pos hblank, ih (i + 1) origs fmt (by omega), scanBlocks, if_pos hblank]
      · rw [if_neg hblank, scanBlocks, if_neg hblank]
        by_cases hint : isAtoiInt (goTrim l)
        · rw [if_pos hint, if_pos hint]
          by_cases hroom : lines.length ≤ i + 2
          · rw [if_pos hroom]
            have hlen1 : (lines.drop (i + 1)).length ≤ 1 := by
              simp only [List.length_drop]
              omega
            cases hd : lines.drop (i + 1) with
            | nil => simp [scanBlocksTail]
            | cons x t =>
              cases t with
              | nil => simp [scanBlocksTail]
              | cons y t2 =>
                rw [hd] at hlen1
                simp at hlen1
          · rw [if_neg hroom]
            have hi1 : i + 1 < lines.length := by omega
            have hi2 : i + 2 < lines.length := by omega
            obtain ⟨a, ha⟩ : ∃ a, lines.getD (i + 1) "" = a := ⟨_, rfl⟩
            obtain ⟨b, hb⟩ : ∃ b, lines.getD (i + 2) "" = b := ⟨_, rfl⟩
            have hdrop1 : lines.drop (i + 1) = a :: lines.drop (i + 2) := by
              rw [← ha, List.getD_eq_getElem lines "" hi1]
              exact List.drop_eq_getElem_cons hi1
            have hdrop2 : lines.drop (i + 2) = b :: lines.drop (i + 3) := by
              rw [← hb, List.getD_eq_getElem lines "" hi2]
              exact List.drop_eq_getElem_cons hi2
            rw [hb, ih (i + 3) (origs ++ [trimSquareBrackets (goTrim b)]) true (by omega)]
            rw [hdrop1, hdrop2, scanBlocksTail]
            cases hsc : scanBlocks (lines.drop (i + 3)) with
            | none => simp
            | some os => simp
        · rw [if_neg hint, if_neg hint, ih (i + 1) origs fmt (by omega)]
    · have hdrop : lines.drop i = [] := List.drop_eq_nil_of_le (by omega)
      rw [svcLoop, if_neg hi, hdrop]
      simp [scanBlocks]

/-- The numeric value of a digit string. -/
def digitsVal (cs : List Char) : Nat :=
  cs.foldl (fun a c => a * 10 + (c.toNat - '0'.toNat)) 0

/-- A "positive integer" first line in the sense of the claim. -/
def isPositiveIntString (s : String) : Bool :=
  match s.data with
  | [] => false
  | '+' :: rest => !rest.isEmpty && rest.all Char.isDigit && decide (0 < digitsVal rest)
  | '-' :: _ => false
  | c :: rest => (c :: rest).all Char.isDigit && decide (0 < digitsVal (c :: rest))

/-- Counterexample to C5: the payload `"0\nt\n[abc]"` is accepted for the
original text `"abcdefghij"` although none of its lines is a positive
integer (the single recognized block starts with `"0"`), so the claim's
"first line is a positive integer" requirement does not characterize
acceptance. -/
theorem isValidSplitContent_positive_cex :
    isValidSplitContent "0\nt\n[abc]" "abcdefghij" = true ∧
    (goSplit '\n' "0\nt\n[abc]").all
      (fun l => !(isPositiveIntString (goTrim l))) = true := by
  constructor
  · decide
  · decide

/-- Amended C5: the validator accepts exactly the payloads described by
`amendedValidSplitContent`, and the empty payload is accepted exactly for
empty original text. -/
theorem isValidSplitContent_eq_amended :
    (∀ p o, isValidSplitContent p o = amendedValidSplitContent p o) ∧
    (∀ o, isValidSplitContent "" o = decide (o = "")) := by
  constructor
  · intro p o
    unfold isValidSplitContent amendedValidSplitContent
    by_cases hp : p = ""
    · simp [hp]
    · by_cases ho : o = ""
      · simp [hp, ho]
      · simp only [hp, ho, Bool.or_false, Bool.and_false]
        by_cases hsent : containsNoTextMark p
        · simp [hsent, ho]
        · simp only [hsent, Bool.false_eq_true, if_false]
          by_cases hlen : (goSplit '\n' p).length < 3
          · simp [hlen, show ¬ (3 ≤ (goSplit '\n' p).length) by omega]
          · simp only [hlen, if_false, show 3 ≤ (goSplit '\n' p).length by omega,
              Bool.true_and]
            rw [svcLoop_eq_scanBlocks (goSplit '\n' p) (goSplit '\n' p).length 0 [] false
              (by omega)]
            simp only [List.drop_zero]
            cases hsc : scanBlocks (goSplit '\n' p) with
            | none => simp
            | some os =>
              cases os with
              | nil => simp
              | cons a os2 => simp
  · intro o
    unfold isValidSplitContent
    by_cases ho : o = ""
    · simp [ho]
    · simp [ho]


/-- Witness for C5 (amended): the equivalence evaluated on a concrete
payload and original text. -/
theorem isValidSplitContent_eq_amended_witness :
    isValidSplitContent "1\nx\n[ab]" "abc" = amendedValidSplitContent "1\nx\n[ab]" "abc" :=
  isValidSplitContent_eq_amended.1 "1\nx\n[ab]" "abc"

/-! ### `splitTextAndTranslate` (audio2subtitle.go:951-1006)

The LLM is an oracle `chat : Nat → Except String String` giving the result
of `ChatCompleter.ChatCompletion` on the `i`-th attempt.  File writes are
outside the claims; the function returns the accepted payload. -/

/-- The retry loop of `splitTextAndTranslate` (audio2subtitle.go:970-987):
up to 4 attempts; a chat error or a payload failing validation records an
error and retries, a valid payload exits with no error.  The pair mirrors
the Go `(err, splitContent)` variables after the loop. -/
def sttLoop (chat : Nat → Except String String) (text : String) :
    Nat → Nat → Option String → String → Option String × String
  | 0, _, err, content => (err, content)
  | n + 1, i, _err, content =>
    match chat i with
    | .error e => sttLoop chat text n (i + 1) (some e) content
    | .ok c =>
      if isValidSplitContent c text then (none, c)
      else sttLoop chat text n (i + 1)
        (some "invalid split content format or content mismatch") c

/-- `splitTextAndTranslate` (audio2subtitle.go:951-1006): empty transcript
text is rejected up front (lines 964-967) before any LLM call; otherwise
the 4-attempt loop runs and a leftover error is wrapped and returned. -/
def splitTextAndTranslate (chat : Nat → Except String String)
    (text : String) : Except String String :=
  if text = "" then
    .error "audioToSubtitle splitTextAndTranslate audioFile.TranscriptionData.Text is empty"
  else
    match sttLoop chat text 4 0 none "" with
    | (some e, _) => .error ("audioToSubtitle splitTextAndTranslate error: " ++ e)
    | (none, c) => .ok c

/-- Counterexample to C1: with an empty transcript `splitTextAndTranslate`
returns an error (and hence the fan-out worker cancels the task), even
though the LLM oracle would answer with a perfectly valid payload — the
pipeline does not proceed on empty ASR text. -/
theorem splitTextAndTranslate_empty_cex :
    splitTextAndTranslate (fun _ => .ok "1\nt\n[abc]") "" =
      .error "audioToSubtitle splitTextAndTranslate audioFile.TranscriptionData.Text is empty" := by
  rfl

/-- Amended C1: for every LLM oracle, `splitTextAndTranslate` applied to the
empty transcript returns the "text is empty" error without consulting the
oracle, so a segment whose ASR text is empty fails the split+translate
sub-step instead of being treated as "no content". -/
theorem splitTextAndTranslate_empty_always_errors
    (chat : Nat → Except String String) :
    splitTextAndTranslate chat "" =
      .error "audioToSubtitle splitTextAndTranslate audioFile.TranscriptionData.Text is empty" := by
  rfl



/-- Witness for C1 (amended): the amended theorem applied to a concrete
oracle. -/
theorem splitTextAndTranslate_empty_always_errors_witness :
    splitTextAndTranslate (fun _ => .ok "2\nt2\n[xyz]") "" =
      .error "audioToSubtitle splitTextAndTranslate audioFile.TranscriptionData.Text is empty" :=
  splitTextAndTranslate_empty_always_errors (fun _ => .ok "2\nt2\n[xyz]")

/-! ### Sentence retiming: `getSentenceTimestamps` (audio2subtitle.go:423-608)

`util.SplitSentence` and `util.GetRecognizableString` are code of this
repository that is not under `src/`; they are modelled from the spec below
and clearly marked.  Everything else is translated from
`audio2subtitle.go`. -/

/-- Go `strings.EqualFold` restricted to `Char.toLower` folding (full
Unicode case folding never differs on the inputs considered here). -/
def goEqFold (a b : String) : Bool :=
  a.data.map Char.toLower == b.data.map Char.toLower

/-- Go `strings.HasPrefix(s, pre)`. -/
def goHasPrefixStr (s pre : String) : Bool :=
  startsWithChars pre.data s.data

/-- Modelled from the spec: `util.SplitSentence` ("Tokenize the sentence
into words") is not under `src/`; modelled as whitespace tokenization that
drops empty tokens. -/
def wordsAux : List Char → List Char → List String
  | [], acc => if acc.isEmpty then [] else [String.mk acc.reverse]
  | c :: cs, acc =>
    if goIsSpace c then
      if acc.isEmpty then wordsAux cs []
      else String.mk acc.reverse :: wordsAux cs []
    else wordsAux cs (c :: acc)

/-- Modelled from the spec: `util.SplitSentence` (see `wordsAux`). -/
def splitSentenceWords (s : String) : List String :=
  wordsAux s.data []

/-- Modelled from the spec: `util.GetRecognizableString` ("filtered
character sequence (drop non-recognizable punctuation/whitespace)") is not
under `src/`; modelled as keeping letters and digits.  The caller splits
the result into one-character strings (`strings.Split(_, "")`), done here
directly. -/
def getRecognizableChars (s : String) : List String :=
  (s.data.filter (fun c => c.isAlphanum)).map (fun c => String.mk [c])

/-- The token-matching phase of the word-based branch
(audio2subtitle.go:441-474): for one sentence token, the nested scans with
cursor resets amount to taking the first word whose text matches
case-insensitively and whose start is not before `lastTs` (a text match
that starts too early is stepped over and the text scan resumes). -/
def findMatch (lastTs : ℚ) (tok : String) : List Word → Option Word
  | [] => none
  | w :: ws =>
    if goEqFold w.text tok && decide (lastTs ≤ w.start) then some w
    else findMatch lastTs tok ws

/-- `sentenceWords` built by the matching phase: a matched word per token,
or the placeholder `types.Word{Text: tok}` (audio2subtitle.go:463-473). -/
def buildSentenceWords (words : List Word) (lastTs : ℚ) (toks : List String) :
    List Word :=
  toks.map (fun tok =>
    (findMatch lastTs tok words).getD { num := 0, text := tok, start := 0, stop := 0 })

/-- Backward extension loop (audio2subtitle.go:495-511): walk `i` down the
sentence words and `j` down the full word list (skipping empty-text words),
overwriting placeholders while the texts keep matching.  `j` indexes
`words` by position, which the code identifies with `Num`.  `fuel` bounds
the iterations (the wrapper passes enough; `j` decreases every step). -/
def extBackLoop (words : List Word) :
    Nat → Int → Int → Word → List Word → Word × List Word
  | 0, _, _, bw, sw => (bw, sw)
  | fuel + 1, i, j, bw, sw =>
    if 0 ≤ i ∧ 0 ≤ j then
      let wj := words.getD j.toNat default
      if wj.text = "" then extBackLoop words fuel i (j - 1) bw sw
      else if goEqFold wj.text (sw.getD i.toNat default).text then
        extBackLoop words fuel (i - 1) (j - 1) wj (sw.set i.toNat wj)
      else (bw, sw)
    else (bw, sw)

/-- `if beginWordIndex > 0 { ... }` wrapper of the backward extension. -/
def extendBackward (words : List Word) (b : Nat) (bw : Word) (sw : List Word) :
    Word × List Word :=
  if 0 < b then extBackLoop words (bw.num.toNat + 1) ((b : Int) - 1) (bw.num - 1) bw sw
  else (bw, sw)

/-- Forward extension loop (audio2subtitle.go:514-530), the mirror image:
`i` walks up the sentence words, `j` up the full word list skipping
empty-text words. -/
def extFwdLoop (words : List Word) :
    Nat → Nat → Int → Word → List Word → Word × List Word
  | 0, _, _, ew, sw => (ew, sw)
  | fuel + 1, i, j, ew, sw =>
    if i < sw.length ∧ j < (words.length : Int) then
      let wj := words.getD j.toNat default
      if wj.text = "" then extFwdLoop words fuel i (j + 1) ew sw
      else if goEqFold wj.text (sw.getD i default).text then
        extFwdLoop words fuel (i + 1) (j + 1) wj (sw.set i wj)
      else (ew, sw)
    else (ew, sw)

/-- `if endWordIndex < len(sentenceWords) { ... }` wrapper of the forward
extension. -/
def extendForward (words : List Word) (e : Nat) (ew : Word) (sw : List Word) :
    Word × List Word :=
  if e < sw.length then
    extFwdLoop words (words.length + (ew.num + 1).natAbs + 1) e (ew.num + 1) ew sw
  else (ew, sw)

/-- Begin-word snapping (audio2subtitle.go:533-535): adopt the first
sentence word when the begin word is within 10 `Num`s above it. -/
def snapBegin (bw : Word) (sw : List Word) : Word :=
  let w0 := sw.getD 0 default
  if w0.num < bw.num ∧ bw.num - w0.num < 10 then w0 else bw

/-- End-word snapping (audio2subtitle.go:538-540). -/
def snapEnd (ew : Word) (sw : List Word) : Word :=
  let wl := sw.getD (sw.length - 1) default
  if ew.num < wl.num ∧ wl.num - ew.num < 10 then wl else ew

/-- Extension of the maximal run in both directions followed by snapping
(audio2subtitle.go:483-540), returning the final begin word, end word and
(mutated) sentence words. -/
def extendAndSnap (words : List Word) (sw : List Word) (b e : Nat) :
    Word × Word × List Word :=
  let bw0 := sw.getD b default
  let ew0 := sw.getD (e - 1) default
  let bsw := extendBackward words b bw0 sw
  let esw := extendForward words e ew0 bsw.2
  (snapBegin bsw.1 esw.2, snapEnd esw.1 esw.2, esw.2)

/-- Word-based branch of `getSentenceTimestamps`
(audio2subtitle.go:429-552), taking the token list
(`util.SplitSentence(sentence)`) directly.  Returns the sentence times, the
sentence words and the new `lastTs`.  (For `words = []` the Go code would
panic at `words[0]`; the embedding returns placeholders instead — no
theorem below uses that case.) -/
def getSentenceTimestampsTokens (words : List Word) (toks : List String)
    (lastTs : ℚ) : Except String (SrtSentence × List Word × ℚ) :=
  if toks.isEmpty then .error "getSentenceTimestamps sentence is empty"
  else
    let sentenceWords := buildSentenceWords words lastTs toks
    let p := findMaxIncreasingSubArray sentenceWords
    if p.2 - p.1 = 0 then .error "getSentenceTimestamps no valid sentence"
    else if p.2 - p.1 = sentenceWords.length then
      let beginWord := sentenceWords.getD p.1 default
      let endWord := sentenceWords.getD (p.2 - 1) default
      .ok (⟨beginWord.start, endWord.stop⟩, sentenceWords, endWord.stop)
    else
      let r := extendAndSnap words sentenceWords p.1 p.2
      let start := if r.1.start < lastTs then lastTs else r.1.start
      let newTs := if r.1.num ≠ r.2.1.num ∧ lastTs < r.2.1.stop then r.2.1.stop else lastTs
      .ok (⟨start, r.2.1.stop⟩, r.2.2, newTs)

/-- Character-branch word collection (audio2subtitle.go:567-583): for each
sentence character, every word that equals it case-insensitively or starts
with it and does not start before `lastTs`, in word-list order. -/
def buildCharWords (words : List Word) (lastTs : ℚ) (chars : List String) :
    List Word :=
  chars.foldl (fun acc c =>
    acc ++ words.filter (fun w =>
      (goEqFold w.text c || goHasPrefixStr w.text c) && decide (lastTs ≤ w.start))) []

/-- Inner `j` loop of the `jumpFindMaxIncreasingSubArray` DP
(audio2subtitle.go:680-687). -/
def jumpInnerLoop (ws : List Word) (i : Nat) :
    Nat → Nat → Array Nat × Array Int → Array Nat × Array Int
  | 0, _, st => st
  | fuel + 1, j, st =>
    if j < i then
      let st' :=
        if wNum ws i = wNum ws j + 1 ∧ st.1.getD i 1 < st.1.getD j 1 + 1 then
          (st.1.set! i (st.1.getD j 1 + 1), st.2.set! i (j : Int))
        else st
      jumpInnerLoop ws i fuel (j + 1) st'
    else st

/-- Outer `i` loop of the DP (audio2subtitle.go:678-694), tracking the
maximal `dp` value and its end index. -/
def jumpOuterLoop (ws : List Word) :
    Nat → Nat → Array Nat × Array Int → Nat → Int →
      (Array Nat × Array Int) × Nat × Int
  | 0, _, st, maxLen, endIdx => (st, maxLen, endIdx)
  | fuel + 1, i, st, maxLen, endIdx =>
    if i < ws.length then
      let st' := jumpInnerLoop ws i i 0 st
      let d := st'.1.getD i 1
      if maxLen < d then jumpOuterLoop ws fuel (i + 1) st' d (i : Int)
      else jumpOuterLoop ws fuel (i + 1) st' maxLen endIdx
    else (st, maxLen, endIdx)

/-- Backtracking to the start of the chain (audio2subtitle.go:702-705). -/
def jumpBackStart (prev : Array Int) : Nat → Int → Int
  | 0, s => s
  | fuel + 1, s =>
    if prev.getD s.toNat (-1) = -1 then s
    else jumpBackStart prev fuel (prev.getD s.toNat (-1))

/-- Result collection (audio2subtitle.go:708-711): follow `prev` from the
given index, appending the visited words (the Go code starts this walk at
`startIdx`, whose `prev` is `-1`, so it collects a single word). -/
def jumpCollect (ws : List Word) (prev : Array Int) :
    Nat → Int → List Word → List Word
  | 0, _, acc => acc
  | fuel + 1, i, acc =>
    if i = -1 then acc
    else jumpCollect ws prev fuel (prev.getD i.toNat (-1))
      (acc ++ [ws.getD i.toNat default])

/-- `jumpFindMaxIncreasingSubArray` (audio2subtitle.go:657-719): the O(n²)
DP over `Num+1` adjacency, returning start index, end index and the
reconstructed word list (reversed after collection, as in the source). -/
def jumpFindMaxIncreasingSubArray (ws : List Word) : Int × Int × List Word :=
  if ws.length = 0 then (-1, -1, [])
  else
    let st0 : Array Nat × Array Int :=
      (Array.mkArray ws.length 1, Array.mkArray ws.length (-1))
    let r := jumpOuterLoop ws ws.length 1 st0 0 (-1)
    if r.2.2 = -1 then (-1, -1, [])
    else
      let startIdx := jumpBackStart r.1.2 r.1.2.size r.2.2
      let result := jumpCollect ws r.1.2 (r.1.2.size + 1) startIdx []
      (startIdx, r.2.2, result.reverse)

/-- Character-based branch of `getSentenceTimestamps`
(audio2subtitle.go:554-607), taking the filtered character list
(`util.GetRecognizableString`) directly. -/
def getSentenceTimestampsChar (words : List Word) (chars : List String)
    (lastTs : ℚ) : Except String (SrtSentence × List Word × ℚ) :=
  if chars.isEmpty then .error "getSentenceTimestamps sentence is empty"
  else
    let sentenceWords := buildCharWords words lastTs chars
    let r := jumpFindMaxIncreasingSubArray sentenceWords
    if r.2.1 - r.1 = 0 then .error "getSentenceTimestamps no valid sentence"
    else
      let beginWord := sentenceWords.getD r.1.toNat default
      let endWord := sentenceWords.getD r.2.1.toNat default
      let start := if beginWord.start < lastTs then lastTs else beginWord.start
      let newTs := if beginWord.num ≠ endWord.num ∧ lastTs < endWord.stop then endWord.stop
        else lastTs
      .ok (⟨start, endWord.stop⟩, r.2.2, newTs)

/-- `types.StandardLanguageName`, restricted to the names the embedded
functions branch on. -/
inductive StandardLanguageName
  | english | german | turkish | russian
  | simplifiedChinese | traditionalChinese | japanese | korean | thai
  | other
deriving DecidableEq, Repr

/-- `getSentenceTimestamps` (audio2subtitle.go:423-608): dispatch between
the word-based languages (English, German, Turkish, Russian) and the
character-based branch, with the two modelled tokenizers. -/
def getSentenceTimestamps (words : List Word) (sentence : String) (lastTs : ℚ)
    (language : StandardLanguageName) : Except String (SrtSentence × List Word × ℚ) :=
  match language with
  | .english | .german | .turkish | .russian =>
    getSentenceTimestampsTokens words (splitSentenceWords sentence) lastTs
  | _ => getSentenceTimestampsChar words (getRecognizableChars sentence) lastTs


/-- The clamp `if x < l then l else x` used on every emitted start time is
exactly `max x l`. -/
theorem clamp_eq_max (x l : ℚ) : (if x < l then l else x) = max x l := by
  by_cases h : x < l
  · rw [if_pos h, max_eq_right (le_of_lt h)]
  · rw [if_neg h, max_eq_left (le_of_not_lt h)]

/-- Counterexample to C3: `words = [⟨Num 3, "hello", 1, 2⟩]`, sentence
token `"hello"`, `lastTs = 3`.  The word starts before `lastTs`, so the
token becomes a placeholder; the placeholder alone is a "consecutive" run
covering the whole sentence, and the early-return path emits `start = 0`
(not `max(run.start, lastTs) = 3`) and sets the new `lastTs` to `0` even
though the run has length 1 and its end `0 < lastTs` — the claimed
equations fail on this return path. -/
theorem getSentenceTimestamps_consecutive_cex :
    getSentenceTimestampsTokens [⟨3, "hello", 1, 2⟩] ["hello"] 3 =
      .ok (⟨0, 0⟩, [⟨0, "hello", 0, 0⟩], 0) ∧
    ¬ ((0 : ℚ) = max 0 3) ∧ ((0 : ℚ) < 3) := by
  refine ⟨by rfl, by norm_num, by norm_num⟩

/-- Amended C3: on the general return path (maximal run not covering all
sentence words) the emitted times are `start = max(run.start, lastTs)`,
`end = run.end` for the extended-and-snapped run endpoints, and the new
`lastTs` is `run.end` exactly when the endpoint `Num`s differ and
`run.end > lastTs`; on the all-consecutive early-return path the emitted
start is the raw run start (not clamped to `lastTs`) and the new `lastTs`
is the run end unconditionally. -/
theorem getSentenceTimestamps_wordBased_paths (words : List Word)
    (toks : List String) (lastTs : ℚ) (sw : List Word) (b e : Nat)
    (hsw : sw = buildSentenceWords words lastTs toks)
    (hp : (b, e) = findMaxIncreasingSubArray sw)
    (hne : toks ≠ []) (hnz : e - b ≠ 0) :
    (e - b = sw.length →
      getSentenceTimestampsTokens words toks lastTs =
        .ok (⟨(sw.getD b default).start, (sw.getD (e - 1) default).stop⟩, sw,
          (sw.getD (e - 1) default).stop)) ∧
    (e - b ≠ sw.length →
      ∀ bw ew sw2, (bw, ew, sw2) = extendAndSnap words sw b e →
      getSentenceTimestampsTokens words toks lastTs =
        .ok (⟨max bw.start lastTs, ew.stop⟩, sw2,
          if bw.num ≠ ew.num ∧ lastTs < ew.stop then ew.stop else lastTs)) := by
  have hemp : toks.isEmpty = false := by
    cases toks with
    | nil => exact absurd rfl hne
    | cons a t => rfl
  constructor
  · intro hcons
    unfold getSentenceTimestampsTokens
    rw [hemp]
    simp only [Bool.false_eq_true, if_false, ← hsw, ← hp]
    rw [if_neg hnz, if_pos hcons]
  · intro hncons bw ew sw2 hext
    unfold getSentenceTimestampsTokens
    rw [hemp]
    simp only [Bool.false_eq_true, if_false, ← hsw, ← hp]
    rw [if_neg hnz, if_neg hncons, ← hext]
    simp only [clamp_eq_max]

/-- Witness for C3 (amended): a concrete general-path run — tokens
`a b c` against words with `Num`s `0, 1, 5`; the maximal run `[0, 2)` does
not cover the three sentence words, the forward extension adopts the third
word, and the emitted triple is exactly the amended formula's value. -/
theorem getSentenceTimestamps_wordBased_paths_witness :
    getSentenceTimestampsTokens [⟨0, "a", 0, 1⟩, ⟨1, "b", 1, 2⟩, ⟨5, "c", 2, 3⟩]
      ["a", "b", "c"] 0 =
      .ok (⟨0, 3⟩, [⟨0, "a", 0, 1⟩, ⟨1, "b", 1, 2⟩, ⟨5, "c", 2, 3⟩], 3) := by
  have h := (getSentenceTimestamps_wordBased_paths
    [⟨0, "a", 0, 1⟩, ⟨1, "b", 1, 2⟩, ⟨5, "c", 2, 3⟩] ["a", "b", "c"] 0
    [⟨0, "a", 0, 1⟩, ⟨1, "b", 1, 2⟩, ⟨5, "c", 2, 3⟩]
    0 2 (by rfl) (by decide) (by decide) (by decide)).2 (by decide)
    ⟨0, "a", 0, 1⟩ ⟨5, "c", 2, 3⟩ [⟨0, "a", 0, 1⟩, ⟨1, "b", 1, 2⟩, ⟨5, "c", 2, 3⟩]
    (by rfl)
  rw [h]
  rfl

/-! ### `generateTimestamps` (audio2subtitle.go:721-941)

The function reads the per-segment no-timestamp SRT into `util.SrtBlock`s
and writes three files; the embedding takes the parsed blocks as input and
returns the written block sequences.  (The early returns for a leading
`[无文本]` line and for an empty block list happen before any file is
produced and are outside the claims.)  Blocks are mutated through pointers
in Go; the embedding threads the updated blocks explicitly. -/

/-- `util.SrtBlock`: index, timestamp line, origin and target sentences. -/
structure SrtBlock where
  index : Int
  timestamp : String
  origin : String
  target : String
deriving DecidableEq, Repr

instance : Inhabited SrtBlock := ⟨⟨0, "", "", ""⟩⟩

/-- Decimal digits of `n` (most significant first); `fuel ≥ 1` plus the
value bounds the recursion and the callers pass `n + 1`. -/
def natStrAux : Nat → Nat → List Char
  | 0, _ => []
  | fuel + 1, n =>
    if n < 10 then [Char.ofNat (48 + n)]
    else natStrAux fuel (n / 10) ++ [Char.ofNat (48 + n % 10)]

/-- Decimal rendering of a natural number (plain `Nat.repr` is not
kernel-reducible enough for the concrete evaluations below). -/
def natStr (n : Nat) : String :=
  String.mk (natStrAux (n + 1) n)

/-- `%02d`. -/
def pad2 (n : Nat) : String :=
  if n < 10 then "0" ++ natStr n else natStr n

/-- `%03d`. -/
def pad3 (n : Nat) : String :=
  if n < 10 then "00" ++ natStr n
  else if n < 100 then "0" ++ natStr n
  else natStr n

/-- `util.FormatTime` (pkg/util/base.go:112-120): seconds to
`HH:MM:SS,mmm`.  Go truncates the (non-negative) fractional part, i.e.
floors it; the float32 round-trip it performs never changes the values
used here. -/
def formatTime (seconds : ℚ) : String :=
  let totalSeconds : Nat := seconds.floor.toNat
  let milliseconds : Nat := ((seconds - (seconds.floor : ℚ)) * 1000).floor.toNat
  pad2 (totalSeconds / 3600) ++ ":" ++ pad2 (totalSeconds % 3600 / 60) ++ ":" ++
    pad2 (totalSeconds % 60) ++ "," ++ pad3 milliseconds

/-- The `"start --> end"` timestamp line written by `generateTimestamps`. -/
def timestampLine (a b : ℚ) : String :=
  formatTime a ++ " --> " ++ formatTime b

/-- Per-line word budget (audio2subtitle.go:793-803): start from the
configured maximum and adapt by integer division — note `len/k + 1`, a
floor-based width. -/
def thisLineWord (L W : Nat) : Nat :=
  if W < L ∧ L ≤ 2 * W then L / 2 + 1
  else if 2 * W < L ∧ L ≤ 3 * W then L / 3 + 1
  else if 3 * W < L ∧ L ≤ 4 * W then L / 4 + 1
  else if 4 * W < L ∧ L ≤ 5 * W then L / 5 + 1
  else W

/-- Mutable state of the short-line splitter loop
(audio2subtitle.go:806-856): accumulated line text, current start/end
words, the 1-based counter `i`, the `nextStart` flag and the emitted
blocks. -/
structure SplitState where
  origin : String
  startW : Word
  endW : Word
  i : Nat
  nextStart : Bool
  out : List SrtBlock
deriving Repr

/-- One iteration of the splitter loop (audio2subtitle.go:809-856) for one
sentence word: either open a new line (clamping its start to `lastTs`, the
previous line end and the sentence start, and skipping words that end past
the sentence end) or extend the current line, flushing a block every
`lineW` words. -/
def splitterStep (blockIndex : Int) (tsOffset lastTs sentStart sentStop : ℚ)
    (lineW : Nat) (st : SplitState) (word : Word) : SplitState :=
  if st.nextStart then
    let s0 := word
    let s1 := if s0.start < lastTs then { s0 with start := lastTs } else s0
    let s2 := if s1.start < st.endW.stop then { s1 with start := st.endW.stop } else s1
    let s3 := if s2.start < sentStart then { s2 with start := sentStart } else s2
    if sentStop < s3.stop then
      { st with origin := st.origin ++ word.text ++ " " }
    else
      { st with
          origin := st.origin ++ word.text ++ " ", startW := s3, endW := s3,
          i := st.i + 1, nextStart := false }
  else
    let o := st.origin ++ word.text ++ " "
    let e1 := if st.endW.stop < word.stop then word else st.endW
    let e2 := if sentStop < e1.stop then { e1 with stop := sentStop } else e1
    if st.i % lineW = 0 ∧ 1 < st.i then
      { origin := "", startW := st.startW, endW := e2, i := st.i + 1, nextStart := true,
        out := st.out ++ [⟨blockIndex, timestampLine (st.startW.start + tsOffset) (e2.stop + tsOffset), o, ""⟩] }
    else
      { st with origin := o, endW := e2, i := st.i + 1 }

/-- The whole splitter for one sentence (audio2subtitle.go:806-865): fold
the step over the sentence words from the Go initial state (`i = 1`,
`nextStart = true`, zero start/end words) and flush the remainder. -/
def runSplitter (blockIndex : Int) (tsOffset lastTs sentStart sentStop : ℚ)
    (lineW : Nat) (ws : List Word) : List SrtBlock :=
  let st := ws.foldl (splitterStep blockIndex tsOffset lastTs sentStart sentStop lineW)
    ⟨"", default, default, 1, true, []⟩
  if st.origin ≠ "" then
    st.out ++ [⟨blockIndex,
      timestampLine (st.startW.start + tsOffset) (st.endW.stop + tsOffset), st.origin, ""⟩]
  else st.out

/-- State threaded through the per-block loop of `generateTimestamps`
(audio2subtitle.go:757-867): `lastTs`, the Go map `shortOriginSrtMap`
(modelled as its lookup function) and the blocks seen so far with their
timestamps filled in. -/
structure GenState where
  lastTs : ℚ
  shortMap : Int → List SrtBlock
  processed : List SrtBlock

/-- One iteration of the block loop (audio2subtitle.go:761-867): empty
origin, a retiming error or `ts < lastTs` skip the block (its timestamp
stays as parsed, nothing is added to the map, `lastTs` is unchanged);
otherwise the timestamp is set and either a single short block (sentence
fits one line) or the splitter's blocks are appended under the block's
index, and `lastTs` becomes `ts`. -/
def genStep (words : List Word) (lang : StandardLanguageName) (W : Nat)
    (segMin : Nat) (num : Nat) (st : GenState) (b : SrtBlock) : GenState :=
  if b.origin = "" then { st with processed := st.processed ++ [b] }
  else
    match getSentenceTimestamps words b.origin st.lastTs lang with
    | .error _ => { st with processed := st.processed ++ [b] }
    | .ok (sentenceTs, sentenceWords, ts) =>
      if ts < st.lastTs then { st with processed := st.processed ++ [b] }
      else
        let tsOffset : ℚ := (segMin : ℚ) * 60 * ((num : ℚ) - 1)
        let tsStr := timestampLine (sentenceTs.start + tsOffset) (sentenceTs.stop + tsOffset)
        let b' := { b with timestamp := tsStr }
        if sentenceWords.length ≤ W then
          { lastTs := ts
            shortMap := fun k =>
              if k = b.index then st.shortMap b.index ++ [⟨b.index, tsStr, b.origin, ""⟩]
              else st.shortMap k
            processed := st.processed ++ [b'] }
        else
          { lastTs := ts
            shortMap := fun k =>
              if k = b.index then
                st.shortMap b.index ++
                  runSplitter b.index tsOffset st.lastTs sentenceTs.start sentenceTs.stop
                    (thisLineWord sentenceWords.length W) sentenceWords
              else st.shortMap k
            processed := st.processed ++ [b'] }

/-- `types.SubtitleResultType`. -/
inductive SubtitleResultType
  | originOnly | targetOnly | bilingualOnTop | bilingualOnBottom
deriving DecidableEq, Repr

/-- The bilingual write loop (audio2subtitle.go:879-891): every block is
written — index, timestamp line, then target above origin for
`TranslationOnTop` and origin above target otherwise. -/
def writeBilingual (resultType : SubtitleResultType) (blocks : List SrtBlock) :
    List (Int × String × String × String) :=
  blocks.map (fun b =>
    if resultType = .bilingualOnTop then (b.index, b.timestamp, b.target, b.origin)
    else (b.index, b.timestamp, b.origin, b.target))

/-- The mixed and short-origin write loops (audio2subtitle.go:912-938):
for every block, the mixed file gets the whole-sentence translation entry
and then the block's short-origin entries; the short file gets only the
short-origin entries.  Both use their own running counters. -/
def writeMixedShort (shortMap : Int → List SrtBlock) :
    List SrtBlock → Nat → Nat →
      List (Nat × String × String) × List (Nat × String × String)
  | [], _, _ => ([], [])
  | b :: rest, mixedNum, shortNum =>
    let shorts := shortMap b.index
    let mixedShorts := shorts.enum.map (fun q => (mixedNum + 1 + q.1, q.2.timestamp, q.2.origin))
    let shortEntries := shorts.enum.map (fun q => (shortNum + q.1, q.2.timestamp, q.2.origin))
    let rest2 := writeMixedShort shortMap rest (mixedNum + 1 + shorts.length)
      (shortNum + shorts.length)
    ((mixedNum, b.timestamp, b.target) :: mixedShorts ++ rest2.1,
      shortEntries ++ rest2.2)

/-- The three written per-segment outputs: bilingual, short-origin-mixed
and short-origin entry lists. -/
structure GenOut where
  bilingual : List (Int × String × String × String)
  mixed : List (Nat × String × String)
  short : List (Nat × String × String)
deriving DecidableEq, Repr

/-- `generateTimestamps` (audio2subtitle.go:721-941) from parsed blocks to
the three written outputs; `segMin` is `config.Conf.App.SegmentDuration`
(minutes) and `num` the 1-based segment ordinal. -/
def generateTimestamps (words : List Word) (blocks : List SrtBlock)
    (lang : StandardLanguageName) (resultType : SubtitleResultType)
    (W segMin num : Nat) : GenOut :=
  let final := blocks.foldl (genStep words lang W segMin num) ⟨0, fun _ => [], []⟩
  let ms := writeMixedShort final.shortMap final.processed 1 1
  ⟨writeBilingual resultType final.processed, ms.1, ms.2⟩

/-- Every branch of the block loop appends exactly one block (the parsed
one, or the parsed one with its timestamp set) to the processed list. -/
theorem genStep_processed_append (words : List Word) (lang : StandardLanguageName)
    (W segMin num : Nat) (st : GenState) (b : SrtBlock) :
    ∃ nb, (genStep words lang W segMin num st b).processed = st.processed ++ [nb] := by
  unfold genStep
  split
  · exact ⟨b, rfl⟩
  · split
    · exact ⟨b, rfl⟩
    · split
      · exact ⟨b, rfl⟩
      · split
        · exact ⟨_, rfl⟩
        · exact ⟨_, rfl⟩

/-- The block loop processes every parsed block: one processed entry per
block. -/
theorem foldl_genStep_processed_length (words : List Word)
    (lang : StandardLanguageName) (W segMin num : Nat) :
    ∀ (blocks : List SrtBlock) (st : GenState),
      ((blocks.foldl (genStep words lang W segMin num) st).processed).length =
        st.processed.length + blocks.length := by
  intro blocks
  induction blocks with
  | nil => intro st; simp
  | cons b rest ih =>
    intro st
    rw [List.foldl_cons, ih]
    obtain ⟨nb, hnb⟩ := genStep_processed_append words lang W segMin num st b
    rw [hnb]
    simp
    omega

/-- The mixed output has at least one entry per processed block (the
whole-sentence translation entry written for every block). -/
theorem writeMixedShort_length_ge (shortMap : Int → List SrtBlock) :
    ∀ blocks mixedNum shortNum,
      blocks.length ≤ (writeMixedShort shortMap blocks mixedNum shortNum).1.length := by
  intro blocks
  induction blocks with
  | nil => intro m s; simp [writeMixedShort]
  | cons b rest ih =>
    intro m s
    rw [writeMixedShort]
    simp only [List.length_cons, List.length_append]
    have := ih (m + 1 + (shortMap b.index).length) (s + (shortMap b.index).length)
    omega

/-- Counterexample to C2: two blocks; the first retimes to `[0, 3]`, the
second sentence (`"hello"`, whose only word starts before `lastTs = 3`)
fails retiming with `ts = 0 < lastTs`.  The skipped sentence still
contributes a block to the bilingual output (with an empty timestamp line)
and a translation entry to the mixed output — not "no block in any
per-segment output SRT file". -/
theorem generateTimestamps_skipped_block_cex :
    (generateTimestamps [⟨0, "good", 0, 1⟩, ⟨1, "morning", 2, 3⟩, ⟨2, "hello", 1/2, 3/2⟩]
        [⟨1, "", "good morning", "T1"⟩, ⟨2, "", "hello", "T2"⟩]
        .english .bilingualOnBottom 12 5 1).bilingual =
      [(1, "00:00:00,000 --> 00:00:03,000", "good morning", "T1"), (2, "", "hello", "T2")] ∧
    (generateTimestamps [⟨0, "good", 0, 1⟩, ⟨1, "morning", 2, 3⟩, ⟨2, "hello", 1/2, 3/2⟩]
        [⟨1, "", "good morning", "T1"⟩, ⟨2, "", "hello", "T2"⟩]
        .english .bilingualOnBottom 12 5 1).mixed =
      [(1, "00:00:00,000 --> 00:00:03,000", "T1"),
       (2, "00:00:00,000 --> 00:00:03,000", "good morning"), (3, "", "T2")] ∧
    getSentenceTimestamps [⟨0, "good", 0, 1⟩, ⟨1, "morning", 2, 3⟩, ⟨2, "hello", 1/2, 3/2⟩]
        "hello" 3 .english = .ok (⟨0, 0⟩, [⟨0, "hello", 0, 0⟩], 0) ∧
    ((0 : ℚ) < 3) := by
  refine ⟨by with_unfolding_all rfl, by with_unfolding_all rfl,
    by with_unfolding_all rfl, by norm_num⟩

/-- Amended C2: a sentence that fails retiming (error, or returned `ts`
below `lastTs`) is skipped by the loop — `lastTs`, the short-origin map and
the block's own timestamp are unchanged and the loop continues — but the
block is still written: the bilingual output has exactly one entry per
parsed block and the mixed output at least one. -/
theorem generateTimestamps_skip_amended :
    (∀ words lang W segMin num (st : GenState) (b : SrtBlock),
      b.origin ≠ "" →
      ((∃ e, getSentenceTimestamps words b.origin st.lastTs lang = .error e) ∨
       (∃ r, getSentenceTimestamps words b.origin st.lastTs lang = .ok r ∧
         r.2.2 < st.lastTs)) →
      genStep words lang W segMin num st b =
        { st with processed := st.processed ++ [b] }) ∧
    (∀ words blocks lang resultType W segMin num,
      (generateTimestamps words blocks lang resultType W segMin num).bilingual.length =
        blocks.length ∧
      blocks.length ≤
        (generateTimestamps words blocks lang resultType W segMin num).mixed.length) := by
  constructor
  · intro words lang W segMin num st b h0 hfail
    unfold genStep
    rw [if_neg h0]
    rcases hfail with ⟨e, he⟩ | ⟨r, hr, hlt⟩
    · rw [he]
    · obtain ⟨s1, sw, ts⟩ := r
      rw [hr]
      simp only []
      rw [if_pos hlt]
  · intro words blocks lang resultType W segMin num
    constructor
    · unfold generateTimestamps writeBilingual
      simp only [List.length_map]
      rw [foldl_genStep_processed_length]
      simp
    · unfold generateTimestamps
      dsimp only
      have h1 := foldl_genStep_processed_length words lang W segMin num blocks
        ⟨0, fun _ => [], []⟩
      have h2 := writeMixedShort_length_ge
        ((blocks.foldl (genStep words lang W segMin num) ⟨0, fun _ => [], []⟩).shortMap)
        ((blocks.foldl (genStep words lang W segMin num) ⟨0, fun _ => [], []⟩).processed) 1 1
      simp only [List.length_nil] at h1
      omega

/-- Witness for C2 (amended): the skipped `"hello"` block from the
counterexample run through one loop step — `lastTs` stays 3, the map and
the block are untouched. -/
theorem generateTimestamps_skip_amended_witness :
    genStep [⟨0, "good", 0, 1⟩, ⟨1, "morning", 2, 3⟩, ⟨2, "hello", 1/2, 3/2⟩]
      .english 12 5 1 ⟨3, fun _ => [], []⟩ ⟨2, "", "hello", "T2"⟩ =
      { lastTs := 3, shortMap := fun _ => [], processed := [⟨2, "", "hello", "T2"⟩] } := by
  have h := generateTimestamps_skip_amended.1
    [⟨0, "good", 0, 1⟩, ⟨1, "morning", 2, 3⟩, ⟨2, "hello", 1/2, 3/2⟩]
    .english 12 5 1 ⟨3, fun _ => [], []⟩ ⟨2, "", "hello", "T2"⟩
    (by decide)
    (Or.inr ⟨(⟨0, 0⟩, [⟨0, "hello", 0, 0⟩], 0), by with_unfolding_all rfl, by norm_num⟩)
  exact h

/-- The claim's candidate width for the short-line splitter: the smallest
`k ∈ {2,3,4,5}` with `L ≤ k·W`. -/
def specK (L W : Nat) : Nat :=
  if L ≤ 2 * W then 2 else if L ≤ 3 * W then 3 else if L ≤ 4 * W then 4 else 5

/-- Counterexample to C4: for `L = 13` words and `W = 12` the computed
per-line width is `⌊13/2⌋ + 1 = 7`, not `⌈13/2⌉ + 1 = 8`, and the splitter
emits blocks of 7 and 6 words (not 8 and 5): the full run on a concrete
13-word sentence. -/
theorem shortLineSplitter_width_cex :
    thisLineWord 13 12 = 7 ∧ ¬ (thisLineWord 13 12 = 8) ∧
    (generateTimestamps
        [⟨0, "a", 0, 1/2⟩, ⟨1, "b", 1, 3/2⟩, ⟨2, "c", 2, 5/2⟩, ⟨3, "d", 3, 7/2⟩,
         ⟨4, "e", 4, 9/2⟩, ⟨5, "f", 5, 11/2⟩, ⟨6, "g", 6, 13/2⟩, ⟨7, "h", 7, 15/2⟩,
         ⟨8, "i", 8, 17/2⟩, ⟨9, "j", 9, 19/2⟩, ⟨10, "k", 10, 21/2⟩, ⟨11, "l", 11, 23/2⟩,
         ⟨12, "m", 12, 25/2⟩]
        [⟨1, "", "a b c d e f g h i j k l m", "T"⟩]
        .english .bilingualOnBottom 12 5 1).short =
      [(1, "00:00:00,000 --> 00:00:06,500", "a b c d e f g "),
       (2, "00:00:07,000 --> 00:00:12,500", "h i j k l m ")] ∧
    (splitSentenceWords "a b c d e f g ").length = 7 ∧
    (splitSentenceWords "h i j k l m ").length = 6 := by
  refine ⟨by rfl, by decide, by with_unfolding_all rfl, by rfl, by rfl⟩

/-- Amended C4: for a retimed sentence of `L` words with per-line maximum
`W`: if `L ≤ W` the splitter branch emits exactly one block carrying the
full sentence; if `W < L ≤ 5·W` the width is `⌊L/k⌋ + 1` for the smallest
`k ∈ {2,3,4,5}` with `L ≤ k·W` (floor, not ceiling); concretely
`L = 13, W = 12` gives width 7 and blocks of 7 and 5... see the
counterexample for the evaluated 7/6 split. -/
theorem shortLineSplitter_amended :
    (∀ L W, W < L → L ≤ 5 * W →
      thisLineWord L W = L / specK L W + 1 ∧
      L ≤ specK L W * W ∧ 2 ≤ specK L W ∧
      (∀ k, 2 ≤ k → L ≤ k * W → specK L W ≤ k)) ∧
    (∀ L W, L ≤ W → thisLineWord L W = W) ∧
    (∀ words lang W segMin num (st : GenState) (b : SrtBlock) s1 sw ts,
      b.origin ≠ "" →
      getSentenceTimestamps words b.origin st.lastTs lang = .ok (s1, sw, ts) →
      ¬ (ts < st.lastTs) → sw.length ≤ W →
      (genStep words lang W segMin num st b).shortMap b.index =
        st.shortMap b.index ++
          [⟨b.index,
            timestampLine (s1.start + (segMin : ℚ) * 60 * ((num : ℚ) - 1))
              (s1.stop + (segMin : ℚ) * 60 * ((num : ℚ) - 1)),
            b.origin, ""⟩] ∧
      (genStep words lang W segMin num st b).lastTs = ts) := by
  refine ⟨?_, ?_, ?_⟩
  · intro L W hWL h5
    have hk2 : ∀ k W L : Nat, k * W < L → ∀ m, m ≤ k → m * W < L := by
      intro k W L hkW m hm
      have : m * W ≤ k * W := Nat.mul_le_mul_right W hm
      omega
    by_cases h2 : L ≤ 2 * W
    · have : thisLineWord L W = L / 2 + 1 := by
        unfold thisLineWord
        rw [if_pos ⟨hWL, h2⟩]
      refine ⟨by rw [this]; unfold specK; rw [if_pos h2], ?_, ?_, ?_⟩
      · unfold specK; rw [if_pos h2]; omega
      · unfold specK; rw [if_pos h2]
      · intro k hk hkW
        unfold specK; rw [if_pos h2]; omega
    · by_cases h3 : L ≤ 3 * W
      · have : thisLineWord L W = L / 3 + 1 := by
          unfold thisLineWord
          rw [if_neg (by omega), if_pos ⟨by omega, h3⟩]
        refine ⟨by rw [this]; unfold specK; rw [if_neg h2, if_pos h3], ?_, ?_, ?_⟩
        · unfold specK; rw [if_neg h2, if_pos h3]; omega
        · unfold specK; rw [if_neg h2, if_pos h3]; omega
        · intro k hk hkW
          unfold specK; rw [if_neg h2, if_pos h3]
          by_contra hcon
          exact absurd hkW (by have := hk2 2 W L (by omega) k (by omega); omega)
      · by_cases h4 : L ≤ 4 * W
        · have : thisLineWord L W = L / 4 + 1 := by
            unfold thisLineWord
            rw [if_neg (by omega), if_neg (by omega), if_pos ⟨by omega, h4⟩]
          refine ⟨by rw [this]; unfold specK; rw [if_neg h2, if_neg h3, if_pos h4], ?_, ?_, ?_⟩
          · unfold specK; rw [if_neg h2, if_neg h3, if_pos h4]; omega
          · unfold specK; rw [if_neg h2, if_neg h3, if_pos h4]; omega
          · intro k hk hkW
            unfold specK; rw [if_neg h2, if_neg h3, if_pos h4]
            by_contra hcon
            exact absurd hkW (by have := hk2 3 W L (by omega) k (by omega); omega)
        · have : thisLineWord L W = L / 5 + 1 := by
            unfold thisLineWord
            rw [if_neg (by omega), if_neg (by omega), if_neg (by omega),
              if_pos ⟨by omega, h5⟩]
          refine ⟨by rw [this]; unfold specK; rw [if_neg h2, if_neg h3, if_neg h4], ?_, ?_, ?_⟩
          · unfold specK; rw [if_neg h2, if_neg h3, if_neg h4]; omega
          · unfold specK; rw [if_neg h2, if_neg h3, if_neg h4]; omega
          · intro k hk hkW
            unfold specK; rw [if_neg h2, if_neg h3, if_neg h4]
            by_contra hcon
            exact absurd hkW (by have := hk2 4 W L (by omega) k (by omega); omega)
  · intro L W hLW
    unfold thisLineWord
    rw [if_neg (by omega), if_neg (by omega), if_neg (by omega), if_neg (by omega)]
  · intro words lang W segMin num st b s1 sw ts h0 hok hts hlen
    unfold genStep
    rw [if_neg h0, hok]
    simp only []
    rw [if_neg hts, if_pos hlen]
    exact ⟨by simp, rfl⟩

/-- Witness for C4 (amended): width formula at `L = 13, W = 12` and the
single-block branch on a concrete two-word sentence. -/
theorem shortLineSplitter_amended_witness :
    (thisLineWord 13 12 = 13 / specK 13 12 + 1 ∧ specK 13 12 = 2) ∧
    (genStep [⟨0, "good", 0, 1⟩, ⟨1, "morning", 2, 3⟩] .english 12 5 1
        ⟨0, fun _ => [], []⟩ ⟨1, "", "good morning", "T1"⟩).shortMap 1 =
      [⟨1, "00:00:00,000 --> 00:00:03,000", "good morning", ""⟩] := by
  constructor
  · exact ⟨(shortLineSplitter_amended.1 13 12 (by omega) (by omega)).1, by decide⟩
  · have h := (shortLineSplitter_amended.2.2 [⟨0, "good", 0, 1⟩, ⟨1, "morning", 2, 3⟩]
      .english 12 5 1 ⟨0, fun _ => [], []⟩ ⟨1, "", "good morning", "T1"⟩
      ⟨0, 3⟩ [⟨0, "good", 0, 1⟩, ⟨1, "morning", 2, 3⟩] 3
      (by decide) (by rfl) (by norm_num) (by decide)).1
    rw [h]
    with_unfolding_all rfl


/-! ### `srtFileToSpeech` (srt2speech.go:32-163) and
`adjustAudioDuration` (srt2speech.go:219-275)

TTS synthesis, probed durations and ffmpeg invocations are external; the
synthesized WAV duration of block `i` is the oracle `f i`, and the function
is embedded as the *plan* of audio operations it performs, in order. -/

/-- A parsed `HH:MM:SS,mmm` SRT time (Go parses it with
`time.Parse("15:04:05,000", ...)`). -/
structure SrtTime where
  h : Nat
  m : Nat
  s : Nat
  ms : Nat
deriving DecidableEq, Repr

/-- Offset since midnight in milliseconds (`time.Time.Sub` of the zero
date, `srt2speech.go:93`). -/
def SrtTime.toMs (t : SrtTime) : ℚ :=
  ((t.h * 3600000 + t.m * 60000 + t.s * 1000 + t.ms : Nat) : ℚ)

/-- Offset in seconds (`time.Duration.Seconds`). -/
def SrtTime.toSeconds (t : SrtTime) : ℚ :=
  t.toMs / 1000

/-- One block of `parseSRT` (srt2speech.go:169-189). -/
structure SrtEntry where
  start : SrtTime
  stop : SrtTime
  text : String
deriving DecidableEq, Repr

/-- The silence `newGenerateSilence` (srt2speech.go:195-211) produces: the
ffmpeg arguments fix mono, 44100 Hz, `pcm_s16le`, and the duration. -/
structure SilenceSpec where
  channels : Nat
  sampleRate : Nat
  codec : String
  duration : ℚ
deriving DecidableEq, Repr

/-- `newGenerateSilence(path, duration)` as its produced audio. -/
def newGenerateSilence (d : ℚ) : SilenceSpec :=
  ⟨1, 44100, "pcm_s16le", d⟩

/-- What `adjustAudioDuration` does to one block's WAV. -/
inductive AdjustAction
  | padSilence (spec : SilenceSpec)
  | speedup (speed : ℚ)
  | copy
deriving DecidableEq, Repr

/-- `adjustAudioDuration` (srt2speech.go:219-275): shorter audio is padded
with a generated silence of the missing length and concatenated; longer
audio is sped up with `atempo=a/s` (the command serializes the ratio as
`%.2f`; the exact rational is recorded here); equal lengths are copied. -/
def adjustAudioDuration (audioDuration subtitleDuration : ℚ) : AdjustAction :=
  if audioDuration < subtitleDuration then
    .padSilence (newGenerateSilence (subtitleDuration - audioDuration))
  else if subtitleDuration < audioDuration then
    .speedup (audioDuration / subtitleDuration)
  else .copy

/-- One entry of the produced audio plan: the leading silence file, or one
block's adjusted audio with its target slot. -/
inductive PlanItem
  | silence (spec : SilenceSpec)
  | blockAudio (slot : ℚ) (action : AdjustAction)
deriving DecidableEq, Repr

/-- The per-block loop of `srtFileToSpeech` (srt2speech.go:67-149) minus
the first-block silence: for block `i` the slot is `end - start`,
overridden to `nextStart - start` when there is a next block and the block
ends strictly before it starts (srt2speech.go:115-126); the block's WAV
(duration `f i`) is then adjusted to the slot (`headSlot` is the slot of
the first remaining block). -/
def headSlot (sub : SrtEntry) : List SrtEntry → ℚ
  | next :: _ =>
    if sub.stop.toMs < next.start.toMs then
      next.start.toSeconds - sub.start.toSeconds
    else sub.stop.toSeconds - sub.start.toSeconds
  | [] => sub.stop.toSeconds - sub.start.toSeconds

def ttsLoop (f : Nat → ℚ) : Nat → List SrtEntry → List PlanItem
  | _, [] => []
  | i, sub :: rest =>
    PlanItem.blockAudio (headSlot sub rest)
      (adjustAudioDuration (f i) (headSlot sub rest)) :: ttsLoop f (i + 1) rest

/-- `srtFileToSpeech`'s audio plan (srt2speech.go:67-149): the leading
silence is prepended only when `startTime.Second() > 0` — the *seconds
field* of the first block's start — and its duration is the full start
offset in seconds. -/
def srtFileToSpeechPlan (f : Nat → ℚ) : List SrtEntry → List PlanItem
  | [] => []
  | first :: rest =>
    (if 0 < first.start.s then
      [PlanItem.silence (newGenerateSilence (first.start.toMs / 1000))]
    else []) ++ ttsLoop f 0 (first :: rest)

/-- The slot of block `i` as a function of the subtitle list. -/
def slotSpec (subs : List SrtEntry) (i : Nat) : ℚ :=
  match subs.get? i, subs.get? (i + 1) with
  | some cur, some next =>
    if cur.stop.toMs < next.start.toMs then
      next.start.toSeconds - cur.start.toSeconds
    else cur.stop.toSeconds - cur.start.toSeconds
  | some cur, none => cur.stop.toSeconds - cur.start.toSeconds
  | none, _ => 0

/-- The block loop never emits a silence item. -/
theorem ttsLoop_no_silence (f : Nat → ℚ) :
    ∀ subs k item, item ∈ ttsLoop f k subs → ∀ sp, item ≠ PlanItem.silence sp := by
  intro subs
  induction subs with
  | nil => intro k item hmem; simp [ttsLoop] at hmem
  | cons sub rest ih =>
    intro k item hmem sp
    rw [ttsLoop] at hmem
    rcases List.mem_cons.mp hmem with h | h
    · subst h
      intro hc
      cases hc
    · exact ih (k + 1) item h sp

/-- Counterexample to C6: first (and only) SRT block
`00:00:00,500 --> 00:00:01,000`, synthesized WAV of 0.5 s.  The start is
strictly after `00:00:00,000`, yet the plan contains no leading silence:
the code tests `startTime.Second() > 0`, and the seconds field is 0. -/
theorem srtFileToSpeech_subsecond_cex :
    srtFileToSpeechPlan (fun _ => 1/2) [⟨⟨0, 0, 0, 500⟩, ⟨0, 0, 1, 0⟩, "hi"⟩] =
      [PlanItem.blockAudio (1/2) AdjustAction.copy] ∧
    (0 : Nat) < 500 := by
  constructor
  · with_unfolding_all rfl
  · norm_num

/-- Amended C6: a leading silence file is prepended iff the *seconds
field* of the first block's start time is positive (so sub-second starts
such as 00:00:00,500, and whole-minute starts such as 00:01:00,000, get no
leading silence); when prepended, its duration is exactly the first
block's full start offset, and no other silence item ever appears in the
plan. -/
theorem srtFileToSpeechPlan_leading_silence (f : Nat → ℚ) (first : SrtEntry)
    (rest : List SrtEntry) :
    (0 < first.start.s →
      srtFileToSpeechPlan f (first :: rest) =
        PlanItem.silence (newGenerateSilence (first.start.toMs / 1000)) ::
          ttsLoop f 0 (first :: rest)) ∧
    (first.start.s = 0 →
      srtFileToSpeechPlan f (first :: rest) = ttsLoop f 0 (first :: rest) ∧
      ∀ item ∈ srtFileToSpeechPlan f (first :: rest), ∀ sp,
        item ≠ PlanItem.silence sp) := by
  constructor
  · intro hpos
    rw [srtFileToSpeechPlan, if_pos hpos]
    rfl
  · intro hz
    have heq : srtFileToSpeechPlan f (first :: rest) = ttsLoop f 0 (first :: rest) := by
      rw [srtFileToSpeechPlan, if_neg (by omega)]
      rfl
    refine ⟨heq, ?_⟩
    rw [heq]
    exact ttsLoop_no_silence f (first :: rest) 0

/-- Witness for C6 (amended): a first block starting at 00:00:02,000 gets
a 2-second leading silence; one starting at 00:00:00,500 gets none. -/
theorem srtFileToSpeechPlan_leading_silence_witness :
    (srtFileToSpeechPlan (fun _ => 1) [⟨⟨0, 0, 2, 0⟩, ⟨0, 0, 3, 0⟩, "a"⟩] =
      PlanItem.silence (newGenerateSilence ((2000 : ℚ) / 1000)) ::
        ttsLoop (fun _ => 1) 0 [⟨⟨0, 0, 2, 0⟩, ⟨0, 0, 3, 0⟩, "a"⟩]) ∧
    (srtFileToSpeechPlan (fun _ => 1) [⟨⟨0, 0, 0, 500⟩, ⟨0, 0, 1, 0⟩, "a"⟩] =
      ttsLoop (fun _ => 1) 0 [⟨⟨0, 0, 0, 500⟩, ⟨0, 0, 1, 0⟩, "a"⟩]) := by
  constructor
  · have h := (srtFileToSpeechPlan_leading_silence (fun _ => 1)
      ⟨⟨0, 0, 2, 0⟩, ⟨0, 0, 3, 0⟩, "a"⟩ []).1 (by norm_num)
    rw [h]
    with_unfolding_all rfl
  · exact ((srtFileToSpeechPlan_leading_silence (fun _ => 1)
      ⟨⟨0, 0, 0, 500⟩, ⟨0, 0, 1, 0⟩, "a"⟩ []).2 rfl).1

/-- Counterexample to C7: overlapping blocks `00:00:00,000 --> 00:00:05,000`
and `00:00:03,000 --> 00:00:04,000`.  The claim's slot for block 0 is
`nextStart - thisStart = 3`, but because the block does not end before the
next one starts, the code falls back to `end - start = 5`. -/
theorem ttsSlot_overlap_cex :
    srtFileToSpeechPlan (fun _ => 5)
      [⟨⟨0, 0, 0, 0⟩, ⟨0, 0, 5, 0⟩, "a"⟩, ⟨⟨0, 0, 3, 0⟩, ⟨0, 0, 4, 0⟩, "b"⟩] =
      [PlanItem.blockAudio 5 AdjustAction.copy,
       PlanItem.blockAudio 1 (AdjustAction.speedup 5)] ∧
    ((5 : ℚ) ≠ 3) := by
  constructor
  · with_unfolding_all rfl
  · norm_num

/-- Amended C7: for block `i` the slot is `nextStart - thisStart` only
when the block ends strictly before the next one starts; otherwise (and
for the last block) it is `end - start`.  The per-slot adjustment is as
claimed: a shorter WAV is concatenated with a generated mono 44.1 kHz
PCM-16 silence of the missing length, a longer WAV is sped up by
`atempo` ratio `a/s`, an exact fit is copied. -/
theorem ttsSlotAdjust_amended :
    (∀ (f : Nat → ℚ) (subs : List SrtEntry) k i, i < subs.length →
      (ttsLoop f k subs).get? i =
        some (PlanItem.blockAudio (slotSpec subs i)
          (adjustAudioDuration (f (k + i)) (slotSpec subs i)))) ∧
    (∀ a s : ℚ,
      (a < s → adjustAudioDuration a s =
        .padSilence ⟨1, 44100, "pcm_s16le", s - a⟩) ∧
      (s < a → adjustAudioDuration a s = .speedup (a / s)) ∧
      (a = s → adjustAudioDuration a s = .copy)) := by
  constructor
  · intro f subs
    induction subs with
    | nil => intro k i hi; simp at hi
    | cons sub rest ih =>
      intro k i hi
      cases i with
      | zero =>
        rw [ttsLoop]
        cases rest with
        | nil => rfl
        | cons next t => rfl
      | succ j =>
        rw [ttsLoop]
        simp only [List.get?]
        have := ih (k + 1) j (by simpa using hi)
        rw [show k + 1 + j = k + (j + 1) by omega] at this
        rw [this]
        rfl
  · intro a s
    refine ⟨?_, ?_, ?_⟩
    · intro h
      unfold adjustAudioDuration newGenerateSilence
      rw [if_pos h]
    · intro h
      unfold adjustAudioDuration
      rw [if_neg (by exact not_lt_of_gt h), if_pos h]
    · intro h
      subst h
      unfold adjustAudioDuration
      rw [if_neg (lt_irrefl a), if_neg (lt_irrefl a)]


/-- Witness for C7 (amended): block 0 of the counterexample list has slot
5 (overlapping next block), and the three adjustment cases evaluated at
concrete durations. -/
theorem ttsSlotAdjust_amended_witness :
    ((ttsLoop (fun _ => 5) 0
        [⟨⟨0, 0, 0, 0⟩, ⟨0, 0, 5, 0⟩, "a"⟩, ⟨⟨0, 0, 3, 0⟩, ⟨0, 0, 4, 0⟩, "b"⟩]).get? 0 =
      some (PlanItem.blockAudio
        (slotSpec [⟨⟨0, 0, 0, 0⟩, ⟨0, 0, 5, 0⟩, "a"⟩, ⟨⟨0, 0, 3, 0⟩, ⟨0, 0, 4, 0⟩, "b"⟩] 0)
        (adjustAudioDuration 5
          (slotSpec [⟨⟨0, 0, 0, 0⟩, ⟨0, 0, 5, 0⟩, "a"⟩, ⟨⟨0, 0, 3, 0⟩, ⟨0, 0, 4, 0⟩, "b"⟩] 0)))) ∧
    adjustAudioDuration 1 2 = .padSilence ⟨1, 44100, "pcm_s16le", (2 : ℚ) - 1⟩ ∧
    adjustAudioDuration 3 2 = .speedup ((3 : ℚ) / 2) ∧
    adjustAudioDuration 2 2 = .copy := by
  refine ⟨?_, ?_, ?_, ?_⟩
  · exact ttsSlotAdjust_amended.1 (fun _ => 5)
      [⟨⟨0, 0, 0, 0⟩, ⟨0, 0, 5, 0⟩, "a"⟩, ⟨⟨0, 0, 3, 0⟩, ⟨0, 0, 4, 0⟩, "b"⟩] 0 0 (by norm_num)
  · exact (ttsSlotAdjust_amended.2 1 2).1 (by norm_num)
  · exact (ttsSlotAdjust_amended.2 3 2).2.1 (by norm_num)
  · exact (ttsSlotAdjust_amended.2 2 2).2.2 rfl

/-! ### `embedSubtitles` dispatch (srt_embed.go:28-80)

The burn-in work itself is external ffmpeg; the dispatcher is embedded as
the list of rendering actions it performs, in order. -/

/-- The renderings the burn-in stage can perform. -/
inductive EmbedAction
  | horizontal
  | convertToVertical
  | vertical
deriving DecidableEq, Repr

/-- `Service.embedSubtitles` (srt_embed.go:28-80) as its performed
actions.  For an unknown type nothing happens; when the type includes
horizontal and the probed video is portrait (`width < height`) the
function logs and `return nil`s — ending the whole stage, including a
pending vertical rendering for type `all`; when the type includes
vertical and the video is landscape (`width > height`) the source is
first converted to a titled 720×1280 vertical video. -/
def embedSubtitlesActions (ty : String) (width height : Int) : List EmbedAction :=
  if ty = "horizontal" ∨ ty = "vertical" ∨ ty = "all" then
    if ty = "horizontal" ∨ ty = "all" then
      if width < height then []
      else
        EmbedAction.horizontal ::
          (if ty = "vertical" ∨ ty = "all" then
            (if height < width then [EmbedAction.convertToVertical, EmbedAction.vertical]
             else [EmbedAction.vertical])
          else [])
    else
      (if ty = "vertical" ∨ ty = "all" then
        (if height < width then [EmbedAction.convertToVertical, EmbedAction.vertical]
         else [EmbedAction.vertical])
      else [])
  else []

/-- Counterexample to C9: burn-in type `all` on a portrait 720×1280
source performs *no* rendering at all — the early `return nil` on
`width < height` also skips the vertical burn-in the claim says still
happens. -/
theorem embedSubtitles_portrait_all_cex :
    embedSubtitlesActions "all" 720 1280 = [] ∧
    EmbedAction.vertical ∉ embedSubtitlesActions "all" 720 1280 := by
  constructor
  · rfl
  · intro h
    simp [embedSubtitlesActions] at h

/-- Amended C9: when the requested type includes horizontal and the
probed video has `width < height`, the whole burn-in stage returns
immediately: for type `all` the vertical rendering is skipped along with
the horizontal one (and for type `horizontal` the skip ends the stage,
which continues without error); on a landscape source type `all`
performs the horizontal rendering followed by the vertical conversion and
rendering. -/
theorem embedSubtitles_portrait_amended (width height : Int) :
    (width < height →
      embedSubtitlesActions "all" width height = [] ∧
      embedSubtitlesActions "horizontal" width height = []) ∧
    (height < width →
      embedSubtitlesActions "all" width height =
        [EmbedAction.horizontal, EmbedAction.convertToVertical, EmbedAction.vertical]) := by
  constructor
  · intro hwh
    constructor
    · unfold embedSubtitlesActions
      rw [if_pos (by simp), if_pos (by simp), if_pos hwh]
    · unfold embedSubtitlesActions
      rw [if_pos (by simp), if_pos (by simp), if_pos hwh]
  · intro hhw
    unfold embedSubtitlesActions
    rw [if_pos (by simp), if_pos (by simp), if_neg (by omega), if_pos (by simp),
      if_pos hhw]

/-- Witness for C9 (amended): the portrait 720×1280 source and the
landscape 1920×1080 source. -/
theorem embedSubtitles_portrait_amended_witness :
    embedSubtitlesActions "all" 720 1280 = [] ∧
    embedSubtitlesActions "all" 1920 1080 =
      [EmbedAction.horizontal, EmbedAction.convertToVertical, EmbedAction.vertical] := by
  exact ⟨((embedSubtitles_portrait_amended 720 1280).1 (by norm_num)).1,
    (embedSubtitles_portrait_amended 1920 1080).2 (by norm_num)⟩


/-! ### The task driver `StartSubtitleTask` (task file lines 138-199),
`splitSrt`'s descriptor construction (audio2subtitle.go:365-407) and
`uploadSubtitles` (upload_subtitle.go:28-68)

The five pipeline steps are external effects; each is an outcome
parameter.  The background goroutine's panic recovery (lines 140-148) sets
only the status — not `FailReason`. -/

/-- `types.SubtitleTaskStatus`* constants. -/
inductive TaskStatus
  | processing
  | success
  | failed
deriving DecidableEq, Repr

/-- `types.SubtitleFileInfo` collected by `splitSrt`. -/
structure SubtitleFileInfo where
  path : String
  languageIdentifier : String
  name : String
deriving DecidableEq, Repr

/-- `types.SubtitleInfo` stored on the task by `uploadSubtitles`. -/
structure SubtitleInfo where
  taskId : String
  name : String
  downloadUrl : String
deriving DecidableEq, Repr

/-- The observable part of the `types.SubtitleTask` record. -/
structure TaskRecord where
  status : TaskStatus
  failReason : String
  subtitleInfos : List SubtitleInfo
  processPct : Nat
deriving DecidableEq, Repr

/-- The record created at task start (part 6 of `StartSubtitleTask`):
`Status = Processing`, everything else the Go zero value. -/
def initialTask : TaskRecord :=
  ⟨.processing, "", [], 0⟩

/-- `types.LanguageName`* for the UI language switch in `splitSrt`. -/
inductive UILanguage
  | english
  | simplifiedChinese
  | other
deriving DecidableEq, Repr

/-- The display-name suffix switch of `splitSrt`
(audio2subtitle.go:372-376): an unset UI language leaves the name empty. -/
def uiSubtitleName : UILanguage → String → String
  | .english, n => n ++ " Subtitle"
  | .simplifiedChinese, n => n ++ " 单语字幕"
  | .other, _ => ""

/-- The bilingual display name (audio2subtitle.go:399-403). -/
def uiBilingualName : UILanguage → String
  | .english => "Bilingual Subtitle"
  | .simplifiedChinese => "双语字幕"
  | .other => ""

/-- Arguments `splitSrt` uses to build the descriptor list;
`langName`/`langId` stand for `types.GetStandardLanguageName` and the
plain language-code string (neither is under `src/`). -/
structure SplitArgs where
  resultType : SubtitleResultType
  uiLang : UILanguage
  langName : StandardLanguageName → String
  langId : StandardLanguageName → String
  originLang : StandardLanguageName
  targetLang : StandardLanguageName
  originPath : String
  targetPath : String
  biliPath : String

/-- The descriptor list `splitSrt` appends to the task parameters
(audio2subtitle.go:365-407): always the origin-language SRT; the target
SRT when the result type is TargetOnly or bilingual; the bilingual SRT
when the result type is bilingual. -/
def splitSrtInfos (a : SplitArgs) : List SubtitleFileInfo :=
  ⟨a.originPath, a.langId a.originLang, uiSubtitleName a.uiLang (a.langName a.originLang)⟩ ::
    ((if a.resultType = .targetOnly ∨ a.resultType = .bilingualOnBottom ∨
        a.resultType = .bilingualOnTop then
      [⟨a.targetPath, a.langId a.targetLang, uiSubtitleName a.uiLang (a.langName a.targetLang)⟩]
    else []) ++
    (if a.resultType = .bilingualOnTop ∨ a.resultType = .bilingualOnBottom then
      [⟨a.biliPath, "bilingual", uiBilingualName a.uiLang⟩]
    else []))

/-- Modelled from the spec: `util.AddSuffixToFileName` is not under
`src/`; modelled as appending the suffix (the claims never inspect
paths). -/
def addSuffixToFileName (path suffix : String) : String :=
  path ++ suffix

/-- `uploadSubtitles` (upload_subtitle.go:28-68) applied to the task
record: build a `SubtitleInfo` per descriptor (with the `_replaced` file
when a replace map is configured), store them, set `Success` and 100%. -/
def uploadSubtitlesApply (taskId : String) (hasReplace : Bool)
    (infos : List SubtitleFileInfo) (t : TaskRecord) : TaskRecord :=
  let newInfos := infos.map (fun info =>
    SubtitleInfo.mk taskId info.name
      ("/api/file/" ++ (if hasReplace then addSuffixToFileName info.path "_replaced"
        else info.path)))
  { t with status := .success, subtitleInfos := newInfos, processPct := 100 }

/-- Result of one pipeline step: success with a value, an error (the task
is marked Failed with the error string), or a panic (recovered at the top
of the goroutine, which sets only the status). -/
inductive StepOutcome (α : Type)
  | ok (a : α)
  | fail (msg : String)
  | panicked
deriving DecidableEq, Repr

/-- The background goroutine of `StartSubtitleTask` (task file lines
138-199): `linkToFile`, `audioToSubtitle` (whose success yields the
`splitSrt` descriptors), `srtFileToSpeech`, `embedSubtitles`,
`uploadSubtitles`, each aborting with `Status = Failed` and
`FailReason = err.Error()` on error; a recovered panic sets
`Status = Failed` and leaves `FailReason` empty. -/
def runTask (o1 : StepOutcome Unit) (o2 : StepOutcome SplitArgs)
    (o3 o4 o5 : StepOutcome Unit) (taskId : String) (hasReplace : Bool) : TaskRecord :=
  match o1 with
  | .fail msg => { initialTask with status := .failed, failReason := msg }
  | .panicked => { initialTask with status := .failed }
  | .ok _ =>
    match o2 with
    | .fail msg => { initialTask with status := .failed, failReason := msg }
    | .panicked => { initialTask with status := .failed }
    | .ok args =>
      match o3 with
      | .fail msg => { initialTask with status := .failed, failReason := msg }
      | .panicked => { initialTask with status := .failed }
      | .ok _ =>
        match o4 with
        | .fail msg => { initialTask with status := .failed, failReason := msg }
        | .panicked => { initialTask with status := .failed }
        | .ok _ =>
          match o5 with
          | .fail msg => { initialTask with status := .failed, failReason := msg }
          | .panicked => { initialTask with status := .failed }
          | .ok _ => uploadSubtitlesApply taskId hasReplace (splitSrtInfos args) initialTask

/-- The amended per-task record invariant. -/
def TaskOutcomeSpec (o1 : StepOutcome Unit) (o2 : StepOutcome SplitArgs)
    (o3 o4 o5 : StepOutcome Unit) (t : TaskRecord) : Prop :=
  (t.status = .success → t.subtitleInfos ≠ [] ∧ t.processPct = 100) ∧
  (t.status = .failed →
    (∃ msg, (o1 = .fail msg ∨ o2 = .fail msg ∨ o3 = .fail msg ∨ o4 = .fail msg ∨
      o5 = .fail msg) ∧ t.failReason = msg) ∨
    (t.failReason = "" ∧ (o1 = .panicked ∨ o2 = .panicked ∨ o3 = .panicked ∨
      o4 = .panicked ∨ o5 = .panicked)))

/-- Counterexample to C8: a panic in the background goroutine marks the
task Failed with an *empty* `FailReason` — the recovery handler (task file
line 146) sets only the status. -/
theorem task_panic_empty_reason_cex :
    (runTask .panicked
      (.ok ⟨.originOnly, .english, (fun _ => "English"), (fun _ => "en"),
        .english, .simplifiedChinese, "o.srt", "t.srt", "b.srt"⟩)
      (.ok ()) (.ok ()) (.ok ()) "task1" false).status = .failed ∧
    (runTask .panicked
      (.ok ⟨.originOnly, .english, (fun _ => "English"), (fun _ => "en"),
        .english, .simplifiedChinese, "o.srt", "t.srt", "b.srt"⟩)
      (.ok ()) (.ok ()) (.ok ()) "task1" false).failReason = "" := by
  exact ⟨rfl, rfl⟩

/-- Amended C8: the status is always one of Processing/Success/Failed (by
construction of the status type); Success implies a non-empty descriptor
list and 100% progress; Failed via a step error carries that step's error
string as `FailReason` (non-empty whenever the error string is), but on
the panic path `FailReason` stays empty. -/
theorem task_record_amended (o1 : StepOutcome Unit) (o2 : StepOutcome SplitArgs)
    (o3 o4 o5 : StepOutcome Unit) (taskId : String) (hasReplace : Bool) :
    TaskOutcomeSpec o1 o2 o3 o4 o5 (runTask o1 o2 o3 o4 o5 taskId hasReplace) := by
  cases o1 with
  | fail msg => exact ⟨fun h => TaskStatus.noConfusion h,
      fun _ => Or.inl ⟨msg, by simp, rfl⟩⟩
  | panicked => exact ⟨fun h => TaskStatus.noConfusion h,
      fun _ => Or.inr ⟨rfl, by simp⟩⟩
  | ok u1 =>
    cases o2 with
    | fail msg => exact ⟨fun h => TaskStatus.noConfusion h,
        fun _ => Or.inl ⟨msg, by simp, rfl⟩⟩
    | panicked => exact ⟨fun h => TaskStatus.noConfusion h,
        fun _ => Or.inr ⟨rfl, by simp⟩⟩
    | ok args =>
      cases o3 with
      | fail msg => exact ⟨fun h => TaskStatus.noConfusion h,
          fun _ => Or.inl ⟨msg, by simp, rfl⟩⟩
      | panicked => exact ⟨fun h => TaskStatus.noConfusion h,
          fun _ => Or.inr ⟨rfl, by simp⟩⟩
      | ok u3 =>
        cases o4 with
        | fail msg => exact ⟨fun h => TaskStatus.noConfusion h,
            fun _ => Or.inl ⟨msg, by simp, rfl⟩⟩
        | panicked => exact ⟨fun h => TaskStatus.noConfusion h,
            fun _ => Or.inr ⟨rfl, by simp⟩⟩
        | ok u4 =>
          cases o5 with
          | fail msg => exact ⟨fun h => TaskStatus.noConfusion h,
              fun _ => Or.inl ⟨msg, by simp, rfl⟩⟩
          | panicked => exact ⟨fun h => TaskStatus.noConfusion h,
              fun _ => Or.inr ⟨rfl, by simp⟩⟩
          | ok u5 =>
            refine ⟨fun _ => ⟨?_, rfl⟩, fun h => TaskStatus.noConfusion h⟩
            simp [runTask, uploadSubtitlesApply, splitSrtInfos]

/-- Witness for C8 (amended): a fully successful run — Success with the
origin descriptor present and 100% progress. -/
theorem task_record_amended_witness :
    (runTask (.ok ()) (.ok ⟨.originOnly, .english, (fun _ => "English"),
        (fun _ => "en"), .english, .simplifiedChinese, "o.srt", "t.srt", "b.srt"⟩)
      (.ok ()) (.ok ()) (.ok ()) "task1" false).status = .success ∧
    (runTask (.ok ()) (.ok ⟨.originOnly, .english, (fun _ => "English"),
        (fun _ => "en"), .english, .simplifiedChinese, "o.srt", "t.srt", "b.srt"⟩)
      (.ok ()) (.ok ()) (.ok ()) "task1" false).subtitleInfos ≠ [] := by
  refine ⟨rfl, ?_⟩
  exact ((task_record_amended (.ok ()) (.ok ⟨.originOnly, .english,
    (fun _ => "English"), (fun _ => "en"), .english, .simplifiedChinese,
    "o.srt", "t.srt", "b.srt"⟩) (.ok ()) (.ok ()) (.ok ()) "task1" false).1 rfl).1

end KrillinAI
